import Mathlib

/-!
AwesomeWM tag management (`objects/tag.c`): a shallow embedding.

The tag, screen and client objects of `objects/tag.c` are modelled by their
addresses (natural numbers).  The program state holds the tag objects, the tag
array of every screen and a log of every external hook call and signal
emission, in the order the C code performs them.

Modelling conventions:

* pointers are compared by identity, so a `tag_t *`, `client_t *` or
  `screen_t *` is a number; `NULL` is `none`;
* no Lua observer is connected to any signal: an emission only appends to the
  log and does not re-enter the protocols;
* the Lua stack is modelled locally, inside the functions that push objects
  before emitting a signal; the index of the tag argument (`udx`) is replaced
  by the tag itself;
* the Lua reference count of a tag is the field `refs`;
* the `double` arithmetic of `draw.c` is exact rational arithmetic followed by
  a rounding function (`round_binary64` for IEEE 754 binary64).
-/

namespace AwesomeWM

/-- Address of a `tag_t`. -/
abbrev TagId := Nat
/-- Address of a `client_t`. -/
abbrev ClientId := Nat
/-- Address of a `screen_t` (its slot in `globalconf.screens`). -/
abbrev ScreenId := Nat

/-- Signal names used by `tag.c`. -/
inductive Signal
  | property_name
  | property_screen
  | property_selected
  | tagged
  | untagged
  | tag_attach
  | tag_detach
  deriving DecidableEq, Repr

/-- Objects that travel on the Lua stack. -/
inductive LuaObj
  | tag (t : TagId)
  | client (c : ClientId)
  | screen (s : ScreenId)
  deriving DecidableEq, Repr

/-- One observable side effect: an external hook call or a signal emission
(`emit_signal obj name args`: signal `name` emitted on `obj` with arguments `args`). -/
inductive Event
  | banning_need_update
  | ewmh_update_net_current_desktop
  | ewmh_update_net_numbers_of_desktop
  | ewmh_update_net_desktop_names
  | ewmh_client_update_desktop (c : ClientId)
  | emit_signal (obj : LuaObj) (name : Signal) (args : List LuaObj)
  deriving DecidableEq, Repr

/-- The `struct tag` of `tag.c`, with the reference count of its object header. -/
structure tag_t where
  /-- reference count kept by `luaA_object_ref` / `luaA_object_unref` -/
  refs : Nat
  /-- `char *name` -/
  name : Option String
  /-- `screen_t *screen` -/
  screen : Option ScreenId
  /-- `bool selected` -/
  selected : Bool
  /-- `client_array_t clients` -/
  clients : List ClientId
  deriving DecidableEq, Repr

/-- Program state: the tag objects, every screen's `tags` array, and the log of
hook calls and signal emissions (oldest first). -/
structure State where
  tags : TagId → tag_t
  screens : ScreenId → List TagId
  log : List Event

/-- Store `v` as the tag object at address `t`. -/
def State.setTag (st : State) (t : TagId) (v : tag_t) : State :=
  { st with tags := Function.update st.tags t v }

/-- Store `v` as the tag array of screen `s`. -/
def State.setScreen (st : State) (s : ScreenId) (v : List TagId) : State :=
  { st with screens := Function.update st.screens s v }

/-- Record one hook call or emission. -/
def State.emit (st : State) (e : Event) : State :=
  { st with log := st.log ++ [e] }

/-! ## Services that are not part of `tag.c` -/

/-- Modelled from the spec: `luaA_object_ref_class` (luaobject, not among the
sources) acquires one additional reference on the object. -/
def luaA_object_ref (t : TagId) (st : State) : State :=
  st.setTag t { st.tags t with refs := (st.tags t).refs + 1 }

/-- Modelled from the spec: `luaA_object_unref` (luaobject, not among the
sources) releases one reference. -/
def luaA_object_unref (t : TagId) (st : State) : State :=
  st.setTag t { st.tags t with refs := (st.tags t).refs - 1 }

/-- Modelled from the spec: `tag_array_take` / `client_array_take` (generated
by the array macros of `common/array.h`, not among the sources) delete the slot
at index `i`; the slots after it move down by one, keeping their order. -/
def array_take (l : List Nat) (i : Nat) : List Nat :=
  l.eraseIdx i

/-- Modelled from the spec: `tag_array_append` / `client_array_append`
(`common/array.h`, not among the sources) add one slot at the end. -/
def array_append (l : List Nat) (x : Nat) : List Nat :=
  l ++ [x]

/-- Modelled from the spec: the `foreach(var, array)` macro (`common/array.h`,
not among the sources) walks the array in stored order.  Its uses in `tag.c`
show that `var` is a cursor pointing at a slot of the array itself, not at a
copy (`*c`, `(*tag)->selected`, `tag_array_indexof(&screen->tags, tag)`): the
body runs on slot `i` of the live array while `i` is below the current length,
and `i` advances by one after every body.  `fuel` bounds the number of bodies
run; the callers pass the length of the array at loop entry, which is enough
whenever the body never makes the array longer (`foreach_fuel`). -/
def foreach {σ α : Type} (arr : σ → List α) (body : α → σ → σ) : Nat → Nat → σ → σ
  | 0, _, st => st
  | fuel + 1, i, st =>
    match (arr st)[i]? with
    | none => st
    | some x => foreach arr body fuel (i + 1) (body x st)

/-- The Lua stack, top first: index `-k` is position `k - 1`. -/
abbrev LuaStack := List LuaObj

/-- Source function `luaA_object_push`: push an object on top of the stack. -/
def luaA_object_push (o : LuaObj) (L : LuaStack) : LuaStack :=
  o :: L

/-- Source function `lua_pop(L, n)`. -/
def lua_pop (n : Nat) (L : LuaStack) : LuaStack :=
  L.drop n

/-- Source function `lua_insert(L, -k)`: move the top element to index `-k`, shifting the
elements above that index up. -/
def lua_insert (k : Nat) (L : LuaStack) : LuaStack :=
  match L with
  | [] => []
  | top :: rest => rest.take (k - 1) ++ top :: rest.drop (k - 1)

/-- Modelled from the spec: `luaA_object_emit_signal(L, -oud, name, nargs)`
(luaobject, not among the sources) emits `name` on the object at index `-oud`
with the `nargs` values on top of the stack as arguments, and pops those
arguments. -/
def luaA_object_emit_signal (oud : Nat) (name : Signal) (nargs : Nat)
    (p : LuaStack × State) : LuaStack × State :=
  match p.1[oud - 1]? with
  | some obj => (p.1.drop nargs, p.2.emit (Event.emit_signal obj name (p.1.take nargs).reverse))
  | none => (p.1.drop nargs, p.2)

/-- Modelled from the spec: `screen_emit_signal(L, s, name, nargs)` (screen.c,
not among the sources) emits `name` on screen `s` with the `nargs` values on top
of the stack as arguments, and pops those arguments. -/
def screen_emit_signal (s : ScreenId) (name : Signal) (nargs : Nat)
    (p : LuaStack × State) : LuaStack × State :=
  (p.1.drop nargs, p.2.emit (Event.emit_signal (LuaObj.screen s) name (p.1.take nargs).reverse))

/-! ## `tag.c` -/

/-- The scan `for(i = 0; i < len; i++) if(tab[i] == x)`: index of the first slot
holding `x`, counting from `i` for the head of the list. -/
def array_find (x : Nat) : List Nat → Nat → Option Nat
  | [], _ => none
  | y :: ys, i => if y = x then some i else array_find x ys (i + 1)

/-- Source function `tag_view`: view or unview a tag. -/
def tag_view (tag : TagId) (view : Bool) (st : State) : State :=
  if (st.tags tag).selected ≠ view then
    let st1 := st.setTag tag { st.tags tag with selected := view }
    let st2 :=
      if (st1.tags tag).screen.isSome then
        (st1.emit Event.banning_need_update).emit Event.ewmh_update_net_current_desktop
      else st1
    st2.emit (Event.emit_signal (LuaObj.tag tag) Signal.property_selected [])
  else st

/-- Source function `tag_append_to_screen`: append a tag to a screen. -/
def tag_append_to_screen (tag : TagId) (s : ScreenId) (st : State) : State :=
  if (st.tags tag).screen.isSome then
    st
  else
    let st1 := st.setTag tag { st.tags tag with screen := some s }
    let st2 := luaA_object_ref tag st1
    let st3 := st2.setScreen s (array_append (st2.screens s) tag)
    let st4 := st3.emit Event.ewmh_update_net_numbers_of_desktop
    let st5 := st4.emit Event.ewmh_update_net_desktop_names
    let p1 := luaA_object_emit_signal 1 Signal.property_screen 0
      (luaA_object_push (LuaObj.tag tag) [], st5)
    let L2 := lua_pop 1 p1.1
    let p3 := screen_emit_signal s Signal.tag_attach 1
      (luaA_object_push (LuaObj.tag tag) L2, p1.2)
    p3.2

/-- Source function `tag_remove_from_screen`: remove a tag from its screen. -/
def tag_remove_from_screen (tag : TagId) (st : State) : State :=
  match (st.tags tag).screen with
  | none => st
  | some scr =>
    let tags := st.screens scr
    let st1 :=
      match array_find tag tags 0 with
      | some i => st.setScreen scr (array_take tags i)
      | none => st
    let st2 := if (st1.tags tag).selected then st1.emit Event.banning_need_update else st1
    let st3 := st2.emit Event.ewmh_update_net_numbers_of_desktop
    let st4 := st3.emit Event.ewmh_update_net_desktop_names
    let s := scr
    let st5 := st4.setTag tag { st4.tags tag with screen := none }
    let p1 := luaA_object_emit_signal 1 Signal.property_screen 0
      (luaA_object_push (LuaObj.tag tag) [], st5)
    let p2 := screen_emit_signal s Signal.tag_detach 1 p1
    luaA_object_unref tag p2.2

/-- Source function `tag_client_emit_signal`: emit `signame` on the client, then on the tag. -/
def tag_client_emit_signal (t : TagId) (c : ClientId) (signame : Signal) (st : State) : State :=
  let L1 := luaA_object_push (LuaObj.client c) []
  let L2 := luaA_object_push (LuaObj.tag t) L1
  let p3 := luaA_object_emit_signal 2 signame 1 (L2, st)
  let L4 := luaA_object_push (LuaObj.tag t) p3.1
  let L5 := lua_insert 2 L4
  let p6 := luaA_object_emit_signal 2 signame 1 (L5, p3.2)
  p6.2

/-- Source function `is_client_tagged`: is the client in the tag's client array. -/
def is_client_tagged (c : ClientId) (t : tag_t) : Bool :=
  (array_find c t.clients 0).isSome

/-- Source function `tag_client`: tag client `c` with the tag (handed over on top of the stack). -/
def tag_client (t : TagId) (c : ClientId) (st : State) : State :=
  let st1 := luaA_object_ref t st
  if is_client_tagged c (st1.tags t) then
    luaA_object_unref t st1
  else
    let st2 := st1.setTag t { st1.tags t with clients := array_append (st1.tags t).clients c }
    let st3 := st2.emit (Event.ewmh_client_update_desktop c)
    let st4 := st3.emit Event.banning_need_update
    tag_client_emit_signal t c Signal.tagged st4

/-- Source function `untag_client`: untag client `c` from tag `t`. -/
def untag_client (c : ClientId) (t : TagId) (st : State) : State :=
  match array_find c (st.tags t).clients 0 with
  | none => st
  | some i =>
    let st1 := st.setTag t { st.tags t with clients := array_take (st.tags t).clients i }
    let st2 := st1.emit Event.banning_need_update
    let st3 := st2.emit (Event.ewmh_client_update_desktop c)
    let st4 := tag_client_emit_signal t c Signal.untagged st3
    luaA_object_unref t st4

/-- The scan of `tags_get_first_selected_index`: index of the first selected tag. -/
def first_selected_from (st : State) : List TagId → Nat → Option Nat
  | [], _ => none
  | t :: ts, i => if (st.tags t).selected then some i else first_selected_from st ts (i + 1)

/-- Source function `tags_get_first_selected_index`: index of the first selected tag, `0` if none. -/
def tags_get_first_selected_index (screen : ScreenId) (st : State) : Int :=
  match first_selected_from st (st.screens screen) 0 with
  | some i => (i : Int)
  | none => 0

/-- Source function `tag_view_only`: make `target` the only viewed tag of its screen.  The
result is `none` when `target->screen` is `NULL` (a null dereference in C). -/
def tag_view_only (target : Option TagId) (st : State) : Option State :=
  match target with
  | none => some st
  | some tgt =>
    match (st.tags tgt).screen with
    | none => none
    | some scr =>
      some (foreach (fun s : State => s.screens scr)
        (fun tag s => tag_view tag (decide (tag = tgt)) s)
        (st.screens scr).length 0 st)

/-- Source function `tag_view_only_byindex`: view only the tag at index `dindex` of the screen. -/
def tag_view_only_byindex (screen : ScreenId) (dindex : Int) (st : State) : Option State :=
  let tags := st.screens screen
  if dindex < 0 ∨ dindex ≥ (tags.length : Int) then
    some st
  else
    tag_view_only tags[dindex.toNat]? st

/-- The `lua_next` scan of the table argument of `luaA_tag_clients`: is client
`c` one of the table's values. -/
def lua_table_find (c : ClientId) : List ClientId → Bool
  | [] => false
  | tc :: rest => if tc ≠ c then lua_table_find c rest else true

/-- Source function `luaA_tag_clients`: get the tag's clients, after setting them from the
table when one is supplied (`arg = some table`, the table's values in
`lua_next` order).  Returns the table of clients and the new state. -/
def luaA_tag_clients (tag : TagId) (arg : Option (List ClientId)) (st : State) :
    List ClientId × State :=
  let st2 :=
    match arg with
    | none => st
    | some table =>
      let st1 := foreach (fun s : State => (s.tags tag).clients)
        (fun c s => if lua_table_find c table then s else untag_client c tag s)
        (st.tags tag).clients.length 0 st
      table.foldl (fun s c => tag_client tag c s) st1
  ((st2.tags tag).clients, st2)

/-- Source function `luaA_tag_set_name`: set the tag name.  `a_iso2utf8` (draw.h, not among the
sources) is the text conversion, taken as a parameter. -/
def luaA_tag_set_name (a_iso2utf8 : String → String) (tag : TagId) (buf : String)
    (st : State) : State :=
  let st1 := st.setTag tag { st.tags tag with name := none }
  let st2 := st1.setTag tag { st1.tags tag with name := some (a_iso2utf8 buf) }
  st2.emit (Event.emit_signal (LuaObj.tag tag) Signal.property_name [])

/-- Source function `luaA_tag_set_selected`: set the tag selection status. -/
def luaA_tag_set_selected (tag : TagId) (v : Bool) (st : State) : State :=
  tag_view tag v st


/-- One call of the attach/detach protocol. -/
inductive ScreenOp
  | attach (t : TagId) (s : ScreenId)
  | detach (t : TagId)
  deriving DecidableEq, Repr

/-- Perform one attach/detach call. -/
def ScreenOp.apply : ScreenOp → State → State
  | ScreenOp.attach t s, st => tag_append_to_screen t s st
  | ScreenOp.detach t, st => tag_remove_from_screen t st

/-- Perform a sequence of attach/detach calls, first call first. -/
def run_screen_ops (ops : List ScreenOp) (st : State) : State :=
  ops.foldl (fun s op => op.apply s) st


/-- Counting form of I1/I2: tag `t` occurs once in the array of the screen it
points to and nowhere else. -/
def ScreenInv (st : State) : Prop :=
  ∀ t s, (st.screens s).count t = if (st.tags t).screen = some s then 1 else 0

/-- A freshly created tag: one reference, no name, no screen, not selected, no clients. -/
def tag0 : tag_t := { refs := 1, name := none, screen := none, selected := false, clients := [] }
/-- A state where every tag is fresh, every screen's tag array is empty and the log is empty. -/
def st0 : State := { tags := fun _ => tag0, screens := fun _ => [], log := [] }


/-- A tag at address 7 holding the two clients 1 and 2, in this order. -/
def st_two_clients : State := st0.setTag 7 { tag0 with clients := [1, 2] }

/-- A screen 0 holding the three attached tags 7, 8, 9, none selected; every
other tag is fresh and every other screen is empty. -/
def st_three_tags : State :=
  { tags := fun t =>
      if t = 7 ∨ t = 8 ∨ t = 9 then { tag0 with screen := some 0, refs := 2 } else tag0
    screens := fun s => if s = 0 then [7, 8, 9] else []
    log := [] }

/-- Is the logged event a signal emission (as opposed to a hook call). -/
def Event.is_signal : Event → Bool
  | Event.emit_signal _ _ _ => true
  | _ => false

/-- The signals emitted between state `before` and the later state `after`. -/
def emitted_signals (before after : State) : List Event :=
  (after.log.drop before.log.length).filter Event.is_signal

/-- A detached, unselected tag at address 7 named "work". -/
def st_named : State := st0.setTag 7 { tag0 with name := some "work" }

/-- The hook calls and signals logged between state `before` and the later state `after`. -/
def new_events (before after : State) : List Event :=
  after.log.drop before.log.length

/-- A screen 0 holding the three attached tags 7, 8, 9 with tag 8 selected. -/
def st_second_selected : State :=
  st_three_tags.setTag 8 { st_three_tags.tags 8 with selected := true }

/-- A screen 0 holding the three attached tags 7, 8, 9 with tag 7 selected. -/
def st_first_selected : State :=
  st_three_tags.setTag 7 { st_three_tags.tags 7 with selected := true }

/-- Source function `luaA_tag_set_screen`: set the tag screen.  `value` is the
Lua value written to the property: `none` for `nil`, otherwise the (integral)
number.  `nscreens` is `globalconf.screens.len`.  The `luaA_checkscreen` macro
(luaa.h, not among the sources) raises a Lua error, modelled by the result
`none`, when the 0-based screen number is not in `[0, nscreens)`. -/
def luaA_tag_set_screen (nscreens : Nat) (tag : TagId) (value : Option Int) (st : State) :
    Option State :=
  let checked : Option Int :=
    match value with
    | none => some (-1)
    | some k =>
      let screen := k - 1
      if screen < 0 ∨ screen ≥ (nscreens : Int) then none else some screen
  match checked with
  | none => none
  | some screen =>
    let st1 := tag_remove_from_screen tag st
    if screen ≠ -1 then
      some (tag_append_to_screen tag screen.toNat st1)
    else
      some st1

/-- Source function `luaA_tag_get_screen`: the 1-based number of the tag's
screen, or nothing (`none`) when the tag has no screen. -/
def luaA_tag_get_screen (tag : TagId) (st : State) : Option Int :=
  match (st.tags tag).screen with
  | none => none
  | some s => some ((s : Int) + 1)

/-- The state reached from `st0` by attaching tags 7 and 8, in this order, to screen 0. -/
def st_two_attached : State :=
  run_screen_ops [ScreenOp.attach 7 0, ScreenOp.attach 8 0] st0

/-- One call of the attach/detach or the tagging protocol. -/
inductive ProtoOp
  | attach (t : TagId) (s : ScreenId)
  | detach (t : TagId)
  | tag_client (t : TagId) (c : ClientId)
  | untag_client (c : ClientId) (t : TagId)
  deriving DecidableEq, Repr

/-- Perform one protocol call. -/
def ProtoOp.apply : ProtoOp → State → State
  | ProtoOp.attach t s, st => tag_append_to_screen t s st
  | ProtoOp.detach t, st => tag_remove_from_screen t st
  | ProtoOp.tag_client t c, st => AwesomeWM.tag_client t c st
  | ProtoOp.untag_client c t, st => AwesomeWM.untag_client c t st

/-- Perform a sequence of protocol calls, first call first. -/
def run_proto_ops (ops : List ProtoOp) (st : State) : State :=
  ops.foldl (fun s op => op.apply s) st

/-- Number of references the protocols are meant to hold on a tag: one while
it is attached to a screen, plus one per client in its client array. -/
def held_refs (x : tag_t) : Nat :=
  (if x.screen.isSome then 1 else 0) + x.clients.length

/-- Reference balance of tag `t` over a base count `r0`. -/
def RefBalance (r0 : Nat) (t : TagId) (st : State) : Prop :=
  (st.tags t).refs = r0 + held_refs (st.tags t)

/-- The four events one effective `untag_client(c, t)` logs. -/
def untag_events (t : TagId) (c : ClientId) : List Event :=
  [Event.banning_need_update,
   Event.ewmh_client_update_desktop c,
   Event.emit_signal (LuaObj.client c) Signal.untagged [LuaObj.tag t],
   Event.emit_signal (LuaObj.tag t) Signal.untagged [LuaObj.client c]]

/-- The four events one effective `tag_client` of client `c` on tag `t` logs. -/
def tag_events (t : TagId) (c : ClientId) : List Event :=
  [Event.ewmh_client_update_desktop c,
   Event.banning_need_update,
   Event.emit_signal (LuaObj.client c) Signal.tagged [LuaObj.tag t],
   Event.emit_signal (LuaObj.tag t) Signal.tagged [LuaObj.client c]]

/-- Does the event name client `c`: a desktop resync for `c`, a signal emitted
on `c`, or a signal carrying `c` as an argument. -/
def Event.names_client (c : ClientId) : Event → Bool
  | Event.ewmh_client_update_desktop c1 => decide (c1 = c)
  | Event.emit_signal obj _ args => decide (obj = LuaObj.client c) || decide (LuaObj.client c ∈ args)
  | _ => false

/-- The untag loop of `luaA_tag_clients` (its first `foreach`), with explicit fuel and start index. -/
def luaA_tag_clients_untag_loop (tag : TagId) (table : List ClientId) (fuel i : Nat)
    (st : State) : State :=
  foreach (fun s : State => (s.tags tag).clients)
    (fun c s => if lua_table_find c table then s else untag_client c tag s) fuel i st

/-- One call of the tagging protocol or of the bulk client accessor. -/
inductive ClientOp
  | tag_client (t : TagId) (c : ClientId)
  | untag_client (c : ClientId) (t : TagId)
  | set_clients (t : TagId) (table : List ClientId)
  deriving DecidableEq, Repr

/-- Perform one tagging call. -/
def ClientOp.apply : ClientOp → State → State
  | ClientOp.tag_client t c, st => AwesomeWM.tag_client t c st
  | ClientOp.untag_client c t, st => AwesomeWM.untag_client c t st
  | ClientOp.set_clients t table, st => (luaA_tag_clients t (some table) st).2

/-- Perform a sequence of tagging calls, first call first. -/
def run_client_ops (ops : List ClientOp) (st : State) : State :=
  ops.foldl (fun s op => op.apply s) st

/-! ## `draw.c` -/

/-- The `xcb_visualtype_t` of the X protocol, reduced to its visual id. -/
structure xcb_visualtype_t where
  visual_id : Nat
  deriving DecidableEq, Repr

/-- The `xcb_depth_t` of the X protocol: a depth value and the visuals the
iterator `xcb_depth_visuals_iterator` walks, in order. -/
structure xcb_depth_t where
  depth : Nat
  visuals : List xcb_visualtype_t
  deriving DecidableEq, Repr

/-- The `xcb_screen_t` of the X protocol, reduced to the depth entries the
iterator `xcb_screen_allowed_depths_iterator` walks, in order. -/
structure xcb_screen_t where
  allowed_depths : List xcb_depth_t
  deriving DecidableEq, Repr

/-- The inner loop of `draw_visual_depth`: does a visual of the depth entry
have the id `vis`. -/
def draw_visual_depth_visuals (vis : Nat) : List xcb_visualtype_t → Bool
  | [] => false
  | v :: rest => if vis = v.visual_id then true else draw_visual_depth_visuals vis rest

/-- The outer loop of `draw_visual_depth`: the depth of the first entry in
which the inner loop finds `vis`. -/
def draw_visual_depth_depths (vis : Nat) : List xcb_depth_t → Option Nat
  | [] => none
  | d :: rest =>
    if draw_visual_depth_visuals vis d.visuals then some d.depth
    else draw_visual_depth_depths vis rest

/-- Source function `draw_visual_depth`: the depth of visual `vis` on screen
`s`; the result `none` is the call of `fatal` after the loops. -/
def draw_visual_depth (s : xcb_screen_t) (vis : Nat) : Option Nat :=
  draw_visual_depth_depths vis s.allowed_depths

/-- An X screen with a depth 24 entry holding visuals 33 and 34 and two depth
32 entries holding visual 35 and visuals 36 and 35. -/
def xcb_screen_example : xcb_screen_t :=
  { allowed_depths :=
      [{ depth := 24, visuals := [{ visual_id := 33 }, { visual_id := 34 }] },
       { depth := 32, visuals := [{ visual_id := 35 }] },
       { depth := 30, visuals := [{ visual_id := 36 }, { visual_id := 35 }] }] }

/-! ## `draw.c`: premultiplied alpha -/

/-- Rounding of a rational to the nearest integer, ties to the even integer. -/
def round_half_even (x : ℚ) : ℤ :=
  if x - (⌊x⌋ : ℚ) < 1 / 2 then ⌊x⌋
  else if 1 / 2 < x - (⌊x⌋ : ℚ) then ⌊x⌋ + 1
  else if ⌊x⌋ % 2 = 0 then ⌊x⌋
  else ⌊x⌋ + 1

/-- Rounding of a positive rational to 53 significant bits, ties to even: with
`e` the binary exponent of `x` (`2 ^ e ≤ x < 2 ^ (e + 1)`), the value is rounded
to a multiple of `2 ^ (e - 52)`. -/
def round_binary64_pos (x : ℚ) : ℚ :=
  (round_half_even (x * (2 : ℚ) ^ (52 - Int.log 2 x)) : ℚ) * (2 : ℚ) ^ (Int.log 2 x - 52)

/-- The value an IEEE 754 binary64 (`double`) operation returns for the exact
result `x` in the default rounding mode (nearest, ties to even), within the
normal range (no overflow, no subnormals: the values `draw_surface_from_data`
meets are `0` or lie between `1 / 255` and `255`). -/
def round_binary64 (x : ℚ) : ℚ :=
  if x = 0 then 0
  else if 0 < x then round_binary64_pos x
  else -round_binary64_pos (-x)

/-- Conversion of a `double` to `uint8_t`: the fractional part is discarded.
(Values outside `[0, 256)` are undefined in C; they are cut to the range.) -/
def double_to_uint8 (x : ℚ) : Nat :=
  (⌊x⌋).toNat % 256

/-- The loop body of `draw_surface_from_data` on the pixel `p` (a `uint32_t`
in ARGB format).  `fl` is the rounding every `double` operation applies to its
exact result: `alpha` is the rounded quotient `a / 255.0`, each colour byte is
the rounded product of the channel and `alpha`, converted to `uint8_t`.  The
shifts and ors of the last line are taken on the 32-bit pattern. -/
def draw_surface_from_data_pixel (fl : ℚ → ℚ) (p : Nat) : Nat :=
  let a := (p >>> 24) &&& 0xff
  let alpha := fl ((a : ℚ) / 255)
  let r := double_to_uint8 (fl ((((p >>> 16) &&& 0xff : Nat) : ℚ) * alpha))
  let g := double_to_uint8 (fl ((((p >>> 8) &&& 0xff : Nat) : ℚ) * alpha))
  let b := double_to_uint8 (fl ((((p >>> 0) &&& 0xff : Nat) : ℚ) * alpha))
  ((a <<< 24) ||| (r <<< 16) ||| (g <<< 8) ||| b) % 2 ^ 32

/-- Source function `draw_surface_from_data`: the pixel buffer handed to
cairo, the first `width * height` pixels of `data` converted one by one. -/
def draw_surface_from_data (fl : ℚ → ℚ) (width height : Nat) (data : List Nat) : List Nat :=
  (data.take (width * height)).map (draw_surface_from_data_pixel fl)

/-! ## Theorems -/

@[simp] theorem setTag_tags (st : State) (t : TagId) (v : tag_t) :
    (st.setTag t v).tags = Function.update st.tags t v := rfl
@[simp] theorem setTag_screens (st : State) (t : TagId) (v : tag_t) :
    (st.setTag t v).screens = st.screens := rfl
@[simp] theorem setTag_log (st : State) (t : TagId) (v : tag_t) :
    (st.setTag t v).log = st.log := rfl
@[simp] theorem setScreen_tags (st : State) (s : ScreenId) (v : List TagId) :
    (st.setScreen s v).tags = st.tags := rfl
@[simp] theorem setScreen_screens (st : State) (s : ScreenId) (v : List TagId) :
    (st.setScreen s v).screens = Function.update st.screens s v := rfl
@[simp] theorem setScreen_log (st : State) (s : ScreenId) (v : List TagId) :
    (st.setScreen s v).log = st.log := rfl
@[simp] theorem emit_tags (st : State) (e : Event) : (st.emit e).tags = st.tags := rfl
@[simp] theorem emit_screens (st : State) (e : Event) : (st.emit e).screens = st.screens := rfl
@[simp] theorem emit_log (st : State) (e : Event) : (st.emit e).log = st.log ++ [e] := rfl

theorem State.ext_fields {a b : State} (h1 : a.tags = b.tags) (h2 : a.screens = b.screens)
    (h3 : a.log = b.log) : a = b := by
  cases a; cases b; simp_all

theorem array_find_none_iff (x : Nat) (l : List Nat) (i : Nat) :
    array_find x l i = none ↔ x ∉ l := by
  induction l generalizing i with
  | nil => simp [array_find]
  | cons y ys ih =>
    by_cases h : y = x
    · simp [array_find, h]
    · simp [array_find, h, ih, Ne.symm h]

theorem array_find_some_erase (x : Nat) (l : List Nat) (i j : Nat)
    (h : array_find x l i = some j) : i ≤ j ∧ l.eraseIdx (j - i) = l.erase x := by
  induction l generalizing i with
  | nil => simp [array_find] at h
  | cons y ys ih =>
    by_cases hy : y = x
    · simp [array_find, hy] at h
      subst h; subst hy
      simp
    · simp [array_find, hy] at h
      obtain ⟨h1, h2⟩ := ih (i + 1) h
      refine ⟨by omega, ?_⟩
      have : j - i = (j - (i + 1)) + 1 := by omega
      rw [this, List.eraseIdx_cons_succ, h2, List.erase_cons_tail]
      simpa using hy

theorem array_find_take (x : Nat) (l : List Nat) :
    (match array_find x l 0 with
      | some i => array_take l i
      | none => l) = l.erase x := by
  cases h : array_find x l 0 with
  | none =>
    have := (array_find_none_iff x l 0).1 h
    simp [List.erase_of_not_mem this]
  | some j =>
    have := (array_find_some_erase x l 0 j h).2
    simpa [array_take] using this

theorem tag_append_to_screen_attached (tag : TagId) (s : ScreenId) (st : State)
    (h : (st.tags tag).screen ≠ none) : tag_append_to_screen tag s st = st := by
  unfold tag_append_to_screen
  cases hs : (st.tags tag).screen with
  | none => exact absurd hs h
  | some x => simp

theorem tag_append_to_screen_detached (tag : TagId) (s : ScreenId) (st : State)
    (h : (st.tags tag).screen = none) :
    tag_append_to_screen tag s st =
      { tags := Function.update st.tags tag
          { st.tags tag with screen := some s, refs := (st.tags tag).refs + 1 }
        screens := Function.update st.screens s (st.screens s ++ [tag])
        log := st.log ++
          [Event.ewmh_update_net_numbers_of_desktop,
           Event.ewmh_update_net_desktop_names,
           Event.emit_signal (LuaObj.tag tag) Signal.property_screen [],
           Event.emit_signal (LuaObj.screen s) Signal.tag_attach [LuaObj.tag tag]] } := by
  unfold tag_append_to_screen
  simp [h, luaA_object_ref, luaA_object_emit_signal, screen_emit_signal, luaA_object_push,
    lua_pop, array_append]
  apply State.ext_fields <;> simp

theorem tag_remove_from_screen_detached (tag : TagId) (st : State)
    (h : (st.tags tag).screen = none) : tag_remove_from_screen tag st = st := by
  unfold tag_remove_from_screen
  simp [h]

theorem tag_remove_from_screen_attached (tag : TagId) (scr : ScreenId) (st : State)
    (h : (st.tags tag).screen = some scr) :
    tag_remove_from_screen tag st =
      { tags := Function.update st.tags tag
          { st.tags tag with screen := none, refs := (st.tags tag).refs - 1 }
        screens := Function.update st.screens scr ((st.screens scr).erase tag)
        log := st.log ++
          ((if (st.tags tag).selected then [Event.banning_need_update] else []) ++
          [Event.ewmh_update_net_numbers_of_desktop,
           Event.ewmh_update_net_desktop_names,
           Event.emit_signal (LuaObj.tag tag) Signal.property_screen [],
           Event.emit_signal (LuaObj.screen scr) Signal.tag_detach [LuaObj.tag tag]]) } := by
  have hE := array_find_take tag (st.screens scr)
  unfold tag_remove_from_screen
  simp only [h]
  cases hf : array_find tag (st.screens scr) 0 with
  | none =>
    rw [hf] at hE
    simp only at hE
    apply State.ext_fields
    · simp [luaA_object_unref, luaA_object_emit_signal, screen_emit_signal, luaA_object_push]
      split <;> simp
    · simp [luaA_object_unref, luaA_object_emit_signal, screen_emit_signal, luaA_object_push]
      split <;> simp [← hE]
    · simp [luaA_object_unref, luaA_object_emit_signal, screen_emit_signal, luaA_object_push]
      split <;> simp
  | some j =>
    rw [hf] at hE
    simp only at hE
    apply State.ext_fields
    · simp [luaA_object_unref, luaA_object_emit_signal, screen_emit_signal, luaA_object_push]
      split <;> simp
    · simp [luaA_object_unref, luaA_object_emit_signal, screen_emit_signal, luaA_object_push]
      split <;> simp [← hE]
    · simp [luaA_object_unref, luaA_object_emit_signal, screen_emit_signal, luaA_object_push]
      split <;> simp

theorem foreach_fuel {σ α : Type} (arr : σ → List α) (body : α → σ → σ)
    (hb : ∀ x st, (arr (body x st)).length ≤ (arr st).length) :
    ∀ (n i : Nat) (st : σ) (k : Nat), (arr st).length - i ≤ n →
      foreach arr body (n + k) i st = foreach arr body n i st := by
  intro n
  induction n with
  | zero =>
    intro i st k h
    have hnone : (arr st)[i]? = none := List.getElem?_eq_none (by omega)
    cases k with
    | zero => rfl
    | succ k =>
      show foreach arr body (0 + (k + 1)) i st = foreach arr body 0 i st
      rw [Nat.zero_add]
      simp [foreach, hnone]
  | succ n ih =>
    intro i st k h
    have e : n + 1 + k = (n + k) + 1 := by omega
    rw [e]
    cases hx : (arr st)[i]? with
    | none => simp [foreach, hx]
    | some x =>
      simp only [foreach, hx]
      apply ih
      have := hb x st
      omega

theorem foreach_eq_foldl {σ α : Type} (arr : σ → List α) (body : α → σ → σ)
    (hb : ∀ x st, arr (body x st) = arr st) :
    ∀ (n i : Nat) (st : σ), (arr st).length - i ≤ n →
      foreach arr body n i st = ((arr st).drop i).foldl (fun s x => body x s) st := by
  intro n
  induction n with
  | zero =>
    intro i st h
    have : (arr st).drop i = [] := List.drop_eq_nil_of_le (by omega)
    simp [foreach, this]
  | succ n ih =>
    intro i st h
    cases hx : (arr st)[i]? with
    | none =>
      have hle : (arr st).length ≤ i := List.getElem?_eq_none_iff.1 hx
      have : (arr st).drop i = [] := List.drop_eq_nil_of_le hle
      simp [foreach, hx, this]
    | some x =>
      simp only [foreach, hx]
      rw [ih (i + 1) (body x st) (by rw [hb]; omega), hb]
      obtain ⟨hlt, hget⟩ := List.getElem?_eq_some.1 hx
      rw [List.drop_eq_getElem_cons hlt, hget]
      rfl

theorem tag_view_screens (tag : TagId) (v : Bool) (st : State) :
    (tag_view tag v st).screens = st.screens := by
  unfold tag_view
  by_cases h : (st.tags tag).selected = v
  · simp [h]
  · simp only [ne_eq, h, not_false_eq_true, if_true]
    split <;> simp

theorem tag_view_same (tag : TagId) (v : Bool) (st : State) (h : (st.tags tag).selected = v) :
    tag_view tag v st = st := by
  unfold tag_view
  simp [h]

theorem tag_view_tags (tag : TagId) (v : Bool) (st : State) :
    (tag_view tag v st).tags = Function.update st.tags tag { st.tags tag with selected := v } := by
  unfold tag_view
  by_cases h : (st.tags tag).selected = v
  · simp only [ne_eq, h, not_true_eq_false, if_false]
    funext t
    by_cases e : t = tag
    · subst e
      simp [← h]
    · simp [Function.update_noteq e]
  · simp only [ne_eq, h, not_false_eq_true, if_true]
    split <;> simp

theorem is_client_tagged_iff (c : ClientId) (t : tag_t) :
    is_client_tagged c t = true ↔ c ∈ t.clients := by
  unfold is_client_tagged
  cases h : array_find c t.clients 0 with
  | none => simpa using (array_find_none_iff c t.clients 0).1 h
  | some j =>
    simp only [Option.isSome_some, true_iff]
    by_contra hc
    rw [(array_find_none_iff c t.clients 0).2 hc] at h
    cases h

theorem tag_client_emit_signal_eq (t : TagId) (c : ClientId) (signame : Signal) (st : State) :
    tag_client_emit_signal t c signame st =
      { st with log := st.log ++
          [Event.emit_signal (LuaObj.client c) signame [LuaObj.tag t],
           Event.emit_signal (LuaObj.tag t) signame [LuaObj.client c]] } := by
  apply State.ext_fields <;>
    simp [tag_client_emit_signal, luaA_object_emit_signal, luaA_object_push, lua_insert]

theorem tag_client_member (t : TagId) (c : ClientId) (st : State)
    (h : c ∈ (st.tags t).clients) : tag_client t c st = st := by
  have h1 : is_client_tagged c ((luaA_object_ref t st).tags t) = true := by
    rw [is_client_tagged_iff]
    simpa [luaA_object_ref] using h
  unfold tag_client
  simp only [h1, if_true]
  apply State.ext_fields <;> simp [luaA_object_unref, luaA_object_ref]

theorem tag_client_absent (t : TagId) (c : ClientId) (st : State)
    (h : c ∉ (st.tags t).clients) :
    tag_client t c st =
      { tags := Function.update st.tags t
          { st.tags t with clients := (st.tags t).clients ++ [c], refs := (st.tags t).refs + 1 }
        screens := st.screens
        log := st.log ++
          [Event.ewmh_client_update_desktop c,
           Event.banning_need_update,
           Event.emit_signal (LuaObj.client c) Signal.tagged [LuaObj.tag t],
           Event.emit_signal (LuaObj.tag t) Signal.tagged [LuaObj.client c]] } := by
  have h1 : is_client_tagged c ((luaA_object_ref t st).tags t) = false := by
    rw [← Bool.not_eq_true, is_client_tagged_iff]
    simpa [luaA_object_ref] using h
  unfold tag_client
  simp only [h1, Bool.false_eq_true, if_false, tag_client_emit_signal_eq]
  apply State.ext_fields <;> simp [luaA_object_ref, array_append]

theorem untag_client_absent (c : ClientId) (t : TagId) (st : State)
    (h : c ∉ (st.tags t).clients) : untag_client c t st = st := by
  unfold untag_client
  rw [(array_find_none_iff c (st.tags t).clients 0).2 h]

theorem untag_client_member (c : ClientId) (t : TagId) (st : State)
    (h : c ∈ (st.tags t).clients) :
    untag_client c t st =
      { tags := Function.update st.tags t
          { st.tags t with clients := (st.tags t).clients.erase c, refs := (st.tags t).refs - 1 }
        screens := st.screens
        log := st.log ++
          [Event.banning_need_update,
           Event.ewmh_client_update_desktop c,
           Event.emit_signal (LuaObj.client c) Signal.untagged [LuaObj.tag t],
           Event.emit_signal (LuaObj.tag t) Signal.untagged [LuaObj.client c]] } := by
  unfold untag_client
  cases hf : array_find c (st.tags t).clients 0 with
  | none => exact absurd h ((array_find_none_iff c _ 0).1 hf)
  | some j =>
    have hE := (array_find_some_erase c _ 0 j hf).2
    rw [Nat.sub_zero] at hE
    simp only [tag_client_emit_signal_eq]
    apply State.ext_fields <;> simp [luaA_object_unref, array_take, hE]

theorem ScreenInv_attach (tag : TagId) (s : ScreenId) (st : State) (h : ScreenInv st) :
    ScreenInv (tag_append_to_screen tag s st) := by
  cases hs : (st.tags tag).screen with
  | some x =>
    rw [tag_append_to_screen_attached tag s st (by simp [hs])]
    exact h
  | none =>
    rw [tag_append_to_screen_detached tag s st hs]
    intro t s'
    have ht := h t s'
    by_cases e1 : t = tag <;> by_cases e2 : s' = s
    · subst e1; subst e2
      simp [hs] at ht
      simp [ht]
    · subst e1
      simp [hs] at ht
      simp [Function.update_noteq e2, ht, Ne.symm e2]
    · subst e2
      simp [Function.update_noteq e1, ht, e1]
    · simp [Function.update_noteq e1, Function.update_noteq e2, ht]

theorem ScreenInv_detach (tag : TagId) (st : State) (h : ScreenInv st) :
    ScreenInv (tag_remove_from_screen tag st) := by
  cases hs : (st.tags tag).screen with
  | none =>
    rw [tag_remove_from_screen_detached tag st hs]
    exact h
  | some scr =>
    rw [tag_remove_from_screen_attached tag scr st hs]
    intro t s'
    have ht := h t s'
    by_cases e1 : t = tag <;> by_cases e2 : s' = scr
    · subst e1; subst e2
      simp [hs] at ht
      simp [ht]
    · subst e1
      simp [hs, Ne.symm e2] at ht
      simp [Function.update_noteq e2, ht]
    · subst e2
      simp [Function.update_noteq e1, ht, List.count_erase_of_ne e1]
    · simp [Function.update_noteq e1, Function.update_noteq e2, ht]

theorem ScreenInv_run (ops : List ScreenOp) (st : State) (h : ScreenInv st) :
    ScreenInv (run_screen_ops ops st) := by
  induction ops generalizing st with
  | nil => exact h
  | cons op ops ih =>
    have hstep : ScreenInv (op.apply st) := by
      cases op with
      | attach t s => exact ScreenInv_attach t s st h
      | detach t => exact ScreenInv_detach t st h
    exact ih (op.apply st) hstep

/-- C1: starting from a state where every tag is detached and every screen's
tag array is empty, after any finite sequence of attach and detach calls a tag
points to screen `s` exactly when it occurs in the tag array of `s`, it occurs
in the array of at most one screen, and it occurs there at most once. -/
theorem C1_attach_detach_invariant (st : State)
    (hdet : ∀ t, (st.tags t).screen = none) (hemp : ∀ s, st.screens s = [])
    (ops : List ScreenOp) (t : TagId) (s : ScreenId) :
    (((run_screen_ops ops st).tags t).screen = some s ↔ t ∈ (run_screen_ops ops st).screens s) ∧
    (∀ s1 s2, t ∈ (run_screen_ops ops st).screens s1 →
      t ∈ (run_screen_ops ops st).screens s2 → s1 = s2) ∧
    ((run_screen_ops ops st).screens s).count t ≤ 1 := by
  have h0 : ScreenInv st := by
    intro t s
    simp [hdet t, hemp s]
  have hI := ScreenInv_run ops st h0
  refine ⟨?_, ?_, ?_⟩
  · have := hI t s
    constructor
    · intro h
      simp [h] at this
      exact List.count_pos_iff.1 (by omega)
    · intro h
      by_contra hne
      simp [hne] at this
      have := List.count_pos_iff.2 h
      omega
  · intro s1 s2 h1 h2
    have c1 := hI t s1
    have c2 := hI t s2
    have p1 := List.count_pos_iff.2 h1
    have p2 := List.count_pos_iff.2 h2
    by_cases e1 : ((run_screen_ops ops st).tags t).screen = some s1
    · by_cases e2 : ((run_screen_ops ops st).tags t).screen = some s2
      · rw [e1] at e2
        exact Option.some.inj e2
      · simp [e2] at c2
        omega
    · simp [e1] at c1
      omega
  · have := hI t s
    split at this <;> omega

/-- Concrete instance of the C1 theorem. -/
theorem C1_attach_detach_invariant_witness :
    (((run_screen_ops [ScreenOp.attach 7 0, ScreenOp.attach 7 1, ScreenOp.detach 7,
        ScreenOp.attach 7 1] st0).tags 7).screen = some 1 ↔
      7 ∈ (run_screen_ops [ScreenOp.attach 7 0, ScreenOp.attach 7 1, ScreenOp.detach 7,
        ScreenOp.attach 7 1] st0).screens 1) ∧
    (∀ s1 s2, 7 ∈ (run_screen_ops [ScreenOp.attach 7 0, ScreenOp.attach 7 1, ScreenOp.detach 7,
        ScreenOp.attach 7 1] st0).screens s1 →
      7 ∈ (run_screen_ops [ScreenOp.attach 7 0, ScreenOp.attach 7 1, ScreenOp.detach 7,
        ScreenOp.attach 7 1] st0).screens s2 → s1 = s2) ∧
    ((run_screen_ops [ScreenOp.attach 7 0, ScreenOp.attach 7 1, ScreenOp.detach 7,
        ScreenOp.attach 7 1] st0).screens 1).count 7 ≤ 1 :=
  C1_attach_detach_invariant st0 (fun _ => rfl) (fun _ => rfl)
    [ScreenOp.attach 7 0, ScreenOp.attach 7 1, ScreenOp.detach 7, ScreenOp.attach 7 1] 7 1

theorem untag_client_length (c : ClientId) (t : TagId) (st : State) :
    ((untag_client c t st).tags t).clients.length ≤ (st.tags t).clients.length := by
  by_cases h : c ∈ (st.tags t).clients
  · rw [untag_client_member c t st h]
    simp [List.length_erase_of_mem h]
  · rw [untag_client_absent c t st h]

theorem luaA_tag_clients_loop_fuel (tag : TagId) (table : List ClientId) (st : State) (k : Nat) :
    foreach (fun s : State => (s.tags tag).clients)
        (fun c s => if lua_table_find c table then s else untag_client c tag s)
        ((st.tags tag).clients.length + k) 0 st =
      foreach (fun s : State => (s.tags tag).clients)
        (fun c s => if lua_table_find c table then s else untag_client c tag s)
        (st.tags tag).clients.length 0 st := by
  apply foreach_fuel
  · intro x s
    show ((if lua_table_find x table then s else untag_client x tag s).tags tag).clients.length
      ≤ (s.tags tag).clients.length
    split
    · exact le_refl _
    · exact untag_client_length x tag s
  · show (st.tags tag).clients.length - 0 ≤ (st.tags tag).clients.length
    omega

/-- C2 (the code departs from the claim): on a tag whose client array is
`[1, 2]`, the bulk accessor called with the empty table untags client 1 only.
Client 2 stays tagged and is listed in the returned table, although the new
collection is empty; giving the untag loop more fuel does not change this. -/
theorem C2_bulk_set_skips_next_client :
    (luaA_tag_clients 7 (some []) st_two_clients).1 = [2] ∧
    ((luaA_tag_clients 7 (some []) st_two_clients).2.tags 7).clients = [2] ∧
    is_client_tagged 2 ((luaA_tag_clients 7 (some []) st_two_clients).2.tags 7) = true ∧
    (∀ k, ((foreach (fun s : State => (s.tags 7).clients)
        (fun c s => if lua_table_find c [] then s else untag_client c 7 s)
        ((st_two_clients.tags 7).clients.length + k) 0 st_two_clients).tags 7).clients = [2]) := by
  refine ⟨by decide, by decide, by decide, ?_⟩
  intro k
  rw [luaA_tag_clients_loop_fuel]
  decide

theorem tag_view_only_fold_screens (tgt : TagId) (l : List TagId) (st : State) :
    (l.foldl (fun s x => tag_view x (decide (x = tgt)) s) st).screens = st.screens := by
  induction l generalizing st with
  | nil => rfl
  | cons x xs ih =>
    rw [List.foldl_cons, ih, tag_view_screens]

theorem tag_view_only_fold_selected (tgt : TagId) (l : List TagId) (st : State) (t : TagId) :
    ((l.foldl (fun s x => tag_view x (decide (x = tgt)) s) st).tags t).selected =
      if t ∈ l then decide (t = tgt) else (st.tags t).selected := by
  induction l generalizing st with
  | nil => simp
  | cons x xs ih =>
    rw [List.foldl_cons, ih, tag_view_tags]
    by_cases h1 : t ∈ xs
    · simp [h1]
    · by_cases h2 : t = x
      · subst h2
        simp [h1]
      · simp [h1, h2, Function.update_noteq h2]

theorem tag_view_only_attached (tgt : TagId) (scr : ScreenId) (st : State)
    (h : (st.tags tgt).screen = some scr) :
    tag_view_only (some tgt) st =
      some ((st.screens scr).foldl (fun s x => tag_view x (decide (x = tgt)) s) st) := by
  unfold tag_view_only
  simp only [h]
  rw [foreach_eq_foldl (fun s : State => s.screens scr)
    (fun tag s => tag_view tag (decide (tag = tgt)) s)
    (fun x s => by simp [tag_view_screens]) _ 0 st (by simp)]
  rfl

theorem first_selected_from_unique (st : State) (l : List TagId) (i k : Nat)
    (hi : i < l.length)
    (h : ∀ j (hj : j < l.length), (st.tags l[j]).selected = true ↔ j = i) :
    first_selected_from st l k = some (k + i) := by
  induction l generalizing i k with
  | nil => simp at hi
  | cons x xs ih =>
    cases i with
    | zero =>
      have := (h 0 (by simp)).2 rfl
      simp only [List.getElem_cons_zero] at this
      simp [first_selected_from, this]
    | succ i =>
      have h0 : (st.tags x).selected = false := by
        have := (h 0 (by simp)).not.2 (by omega)
        simpa using this
      have hi' : i < xs.length := by simpa using hi
      have := ih i (k + 1) hi' (fun j hj => by
        have := h (j + 1) (by simpa using hj)
        simp only [List.getElem_cons_succ] at this
        rw [this]
        omega)
      simp only [first_selected_from, h0, Bool.false_eq_true, if_false, this]
      congr 1
      omega

/-- C3: on a screen whose tag array holds pairwise distinct tags, all attached
to that screen, `tag_view_only_byindex` with a valid index `i` returns, leaves
the arrays alone, selects the tag at position `j` exactly when `j = i`, and
`tags_get_first_selected_index` then returns `i`. -/
theorem C3_view_only_byindex_exclusive (st : State) (screen : ScreenId) (i : Nat)
    (hnodup : (st.screens screen).Nodup)
    (hatt : ∀ t ∈ st.screens screen, (st.tags t).screen = some screen)
    (hi : i < (st.screens screen).length) :
    ∃ st1, tag_view_only_byindex screen (i : Int) st = some st1 ∧
      st1.screens = st.screens ∧
      (∀ j (hj : j < (st.screens screen).length),
        (st1.tags (st.screens screen)[j]).selected = true ↔ j = i) ∧
      tags_get_first_selected_index screen st1 = (i : Int) := by
  have htgt : (st.tags (st.screens screen)[i]).screen = some screen :=
    hatt _ (List.getElem_mem hi)
  refine ⟨(st.screens screen).foldl
    (fun s x => tag_view x (decide (x = (st.screens screen)[i])) s) st, ?_, ?_, ?_, ?_⟩
  · unfold tag_view_only_byindex
    have hng : ¬ ((i : Int) < 0 ∨ (i : Int) ≥ ((st.screens screen).length : Int)) := by omega
    simp only [hng, if_false, Int.toNat_ofNat, List.getElem?_eq_getElem hi]
    exact tag_view_only_attached _ screen st htgt
  · exact tag_view_only_fold_screens _ _ _
  · intro j hj
    rw [tag_view_only_fold_selected]
    simp only [List.getElem_mem hj, if_true, decide_eq_true_eq]
    exact hnodup.getElem_inj_iff
  · unfold tags_get_first_selected_index
    rw [tag_view_only_fold_screens]
    rw [first_selected_from_unique _ (st.screens screen) i 0 hi]
    · simp
    · intro j hj
      rw [tag_view_only_fold_selected]
      simp only [List.getElem_mem hj, if_true, decide_eq_true_eq]
      exact hnodup.getElem_inj_iff

/-- Concrete instance of the C3 theorem. -/
theorem C3_view_only_byindex_exclusive_witness :
    ∃ st1, tag_view_only_byindex 0 ((1 : Nat) : Int) st_three_tags = some st1 ∧
      st1.screens = st_three_tags.screens ∧
      (∀ j (hj : j < (st_three_tags.screens 0).length),
        (st1.tags (st_three_tags.screens 0)[j]).selected = true ↔ j = 1) ∧
      tags_get_first_selected_index 0 st1 = ((1 : Nat) : Int) :=
  C3_view_only_byindex_exclusive st_three_tags 0 1 (by decide) (by decide) (by decide)

theorem tag_client_twice (t : TagId) (c : ClientId) (st : State) :
    c ∈ ((tag_client t c st).tags t).clients := by
  by_cases h : c ∈ (st.tags t).clients
  · rw [tag_client_member t c st h]
    exact h
  · rw [tag_client_absent t c st h]
    simp

theorem tag_client_iterate (t : TagId) (c : ClientId) (st : State) (n : Nat) :
    (tag_client t c)^[n + 1] st = tag_client t c st := by
  induction n with
  | zero => rfl
  | succ n ih =>
    rw [Function.iterate_succ_apply', ih]
    exact tag_client_member t c _ (tag_client_twice t c st)

/-- C4: calling `tag_client` for the same tag and client `n > 1` times in a row
ends in the very state one call ends in (same client array, same reference
counts, same log of hook calls and signals); and a call made when the client is
already in the tag's client array returns the state unchanged. -/
theorem C4_tag_client_idempotent (t : TagId) (c : ClientId) (st : State) (n : Nat)
    (hn : 1 < n) :
    (tag_client t c)^[n] st = tag_client t c st ∧
    ((tag_client t c)^[n] st).log.length = (tag_client t c st).log.length ∧
    tag_client t c (tag_client t c st) = tag_client t c st ∧
    (c ∈ (st.tags t).clients → tag_client t c st = st) := by
  obtain ⟨m, rfl⟩ : ∃ m, n = m + 1 := ⟨n - 1, by omega⟩
  refine ⟨tag_client_iterate t c st m, by rw [tag_client_iterate], ?_, ?_⟩
  · exact tag_client_member t c _ (tag_client_twice t c st)
  · exact tag_client_member t c st

/-- Concrete instance of the C4 theorem. -/
theorem C4_tag_client_idempotent_witness :
    1 < 3 ∧
    (tag_client 7 5)^[3] st0 = tag_client 7 5 st0 ∧
    ((tag_client 7 5)^[3] st0).log.length = (tag_client 7 5 st0).log.length ∧
    tag_client 7 5 (tag_client 7 5 st0) = tag_client 7 5 st0 ∧
    (5 ∈ (st0.tags 7).clients → tag_client 7 5 st0 = st0) :=
  ⟨by decide, C4_tag_client_idempotent 7 5 st0 3 (by decide)⟩

/-- C5: attaching a tag whose screen is unset to screen `s` sets the tag's
screen to `s` (acquiring one reference and leaving its other fields alone),
appends the tag at the end of the tag array of `s`, changes no other tag and no
other screen, and logs, in this order: desktop-count resync, desktop-names
resync, `property::screen` on the tag, `tag::attach` on `s` carrying the tag. -/
theorem C5_attach_detached_tag (tag : TagId) (s : ScreenId) (st : State)
    (h : (st.tags tag).screen = none) :
    ((tag_append_to_screen tag s st).tags tag).screen = some s ∧
    (tag_append_to_screen tag s st).tags tag =
      { st.tags tag with screen := some s, refs := (st.tags tag).refs + 1 } ∧
    (tag_append_to_screen tag s st).screens s = st.screens s ++ [tag] ∧
    (∀ t, t ≠ tag → (tag_append_to_screen tag s st).tags t = st.tags t) ∧
    (∀ s1, s1 ≠ s → (tag_append_to_screen tag s st).screens s1 = st.screens s1) ∧
    (tag_append_to_screen tag s st).log = st.log ++
      [Event.ewmh_update_net_numbers_of_desktop,
       Event.ewmh_update_net_desktop_names,
       Event.emit_signal (LuaObj.tag tag) Signal.property_screen [],
       Event.emit_signal (LuaObj.screen s) Signal.tag_attach [LuaObj.tag tag]] := by
  rw [tag_append_to_screen_detached tag s st h]
  refine ⟨by simp, by simp, by simp, ?_, ?_, rfl⟩
  · intro t ht
    simp [Function.update_noteq ht]
  · intro s1 hs
    simp [Function.update_noteq hs]

/-- Concrete instance of the C5 theorem. -/
theorem C5_attach_detached_tag_witness :
    (st0.tags 7).screen = none ∧
    ((tag_append_to_screen 7 0 st0).tags 7).screen = some 0 ∧
    (tag_append_to_screen 7 0 st0).tags 7 =
      { st0.tags 7 with screen := some 0, refs := (st0.tags 7).refs + 1 } ∧
    (tag_append_to_screen 7 0 st0).screens 0 = st0.screens 0 ++ [7] ∧
    (∀ t, t ≠ 7 → (tag_append_to_screen 7 0 st0).tags t = st0.tags t) ∧
    (∀ s1, s1 ≠ 0 → (tag_append_to_screen 7 0 st0).screens s1 = st0.screens s1) ∧
    (tag_append_to_screen 7 0 st0).log = st0.log ++
      [Event.ewmh_update_net_numbers_of_desktop,
       Event.ewmh_update_net_desktop_names,
       Event.emit_signal (LuaObj.tag 7) Signal.property_screen [],
       Event.emit_signal (LuaObj.screen 0) Signal.tag_attach [LuaObj.tag 7]] :=
  ⟨rfl, C5_attach_detached_tag 7 0 st0 rfl⟩

/-- C6: attaching a tag whose screen is already set (to the requested screen or
to another one) returns the state unchanged: the tag's screen and reference
count, every screen's tag array and the log stay as they were. -/
theorem C6_attach_attached_tag_noop (tag : TagId) (s0 s : ScreenId) (st : State)
    (h : (st.tags tag).screen = some s0) :
    tag_append_to_screen tag s st = st := by
  apply tag_append_to_screen_attached
  simp [h]

/-- Concrete instance of the C6 theorem. -/
theorem C6_attach_attached_tag_noop_witness :
    (st_three_tags.tags 8).screen = some 0 ∧
    tag_append_to_screen 8 1 st_three_tags = st_three_tags :=
  ⟨rfl, C6_attach_attached_tag_noop 8 0 1 st_three_tags rfl⟩

/-- C7: detaching a tag whose screen is unset, untagging a client that is not
in the tag's client array, and `tag_view_only_byindex` with a negative index
or an index at or past the length of the screen's tag array each return the
state unchanged (tags, screens, reference counts and log). -/
theorem C7_redundant_requests_noop (st : State) (t1 t2 : TagId) (c : ClientId)
    (screen : ScreenId) (i : Int)
    (h1 : (st.tags t1).screen = none)
    (h2 : c ∉ (st.tags t2).clients)
    (h3 : i < 0 ∨ ((st.screens screen).length : Int) ≤ i) :
    tag_remove_from_screen t1 st = st ∧
    untag_client c t2 st = st ∧
    tag_view_only_byindex screen i st = some st := by
  refine ⟨tag_remove_from_screen_detached t1 st h1, untag_client_absent c t2 st h2, ?_⟩
  unfold tag_view_only_byindex
  have : i < 0 ∨ i ≥ ((st.screens screen).length : Int) := h3
  simp only [this, if_true]

/-- Concrete instance of the C7 theorem. -/
theorem C7_redundant_requests_noop_witness :
    ((st_two_clients.tags 7).screen = none ∧ 3 ∉ (st_two_clients.tags 7).clients ∧
      ((-1 : Int) < 0 ∨ ((st_two_clients.screens 0).length : Int) ≤ -1)) ∧
    tag_remove_from_screen 7 st_two_clients = st_two_clients ∧
    untag_client 3 7 st_two_clients = st_two_clients ∧
    tag_view_only_byindex 0 (-1) st_two_clients = some st_two_clients :=
  ⟨⟨by decide, by decide, by decide⟩,
    C7_redundant_requests_noop st_two_clients 7 7 3 0 (-1) (by decide) (by decide) (by decide)⟩

/-- C8: setting `selected` to the value the tag already has returns the state
unchanged, so no `property::selected` is emitted; setting the name to any text
(the current name included) logs exactly one more event, a `property::name`
signal on the tag. -/
theorem C8_change_gating_asymmetry (tag : TagId) (v : Bool) (st : State)
    (a_iso2utf8 : String → String) (buf : String)
    (h : (st.tags tag).selected = v) :
    tag_view tag v st = st ∧
    luaA_tag_set_selected tag v st = st ∧
    emitted_signals st (luaA_tag_set_selected tag v st) = [] ∧
    (luaA_tag_set_name a_iso2utf8 tag buf st).log =
      st.log ++ [Event.emit_signal (LuaObj.tag tag) Signal.property_name []] ∧
    emitted_signals st (luaA_tag_set_name a_iso2utf8 tag buf st) =
      [Event.emit_signal (LuaObj.tag tag) Signal.property_name []] := by
  have hv : tag_view tag v st = st := tag_view_same tag v st h
  have hn : (luaA_tag_set_name a_iso2utf8 tag buf st).log =
      st.log ++ [Event.emit_signal (LuaObj.tag tag) Signal.property_name []] := by
    simp [luaA_tag_set_name]
  refine ⟨hv, hv, ?_, hn, ?_⟩
  · simp [emitted_signals, luaA_tag_set_selected, hv]
  · simp [emitted_signals, hn, Event.is_signal]

/-- Concrete instance of the C8 theorem. -/
theorem C8_change_gating_asymmetry_witness :
    (st_named.tags 7).selected = false ∧
    tag_view 7 false st_named = st_named ∧
    luaA_tag_set_selected 7 false st_named = st_named ∧
    emitted_signals st_named (luaA_tag_set_selected 7 false st_named) = [] ∧
    (luaA_tag_set_name id 7 "work" st_named).log =
      st_named.log ++ [Event.emit_signal (LuaObj.tag 7) Signal.property_name []] ∧
    emitted_signals st_named (luaA_tag_set_name id 7 "work" st_named) =
      [Event.emit_signal (LuaObj.tag 7) Signal.property_name []] :=
  ⟨rfl, C8_change_gating_asymmetry 7 false st_named id "work" rfl⟩

/-- C9: `tag_client` on a client that is not yet in the tag's client array
emits exactly two signals, `tagged` on the client carrying the tag and then
`tagged` on the tag carrying the client; `untag_client` on a client that is in
the array emits exactly two `untagged` signals in the same order. -/
theorem C9_tagged_untagged_signal_order (t : TagId) (c : ClientId) (st1 st2 : State)
    (h1 : c ∉ (st1.tags t).clients) (h2 : c ∈ (st2.tags t).clients) :
    emitted_signals st1 (tag_client t c st1) =
      [Event.emit_signal (LuaObj.client c) Signal.tagged [LuaObj.tag t],
       Event.emit_signal (LuaObj.tag t) Signal.tagged [LuaObj.client c]] ∧
    emitted_signals st2 (untag_client c t st2) =
      [Event.emit_signal (LuaObj.client c) Signal.untagged [LuaObj.tag t],
       Event.emit_signal (LuaObj.tag t) Signal.untagged [LuaObj.client c]] := by
  rw [tag_client_absent t c st1 h1, untag_client_member c t st2 h2]
  simp [emitted_signals, Event.is_signal]

/-- Concrete instance of the C9 theorem. -/
theorem C9_tagged_untagged_signal_order_witness :
    (1 ∉ (st0.tags 7).clients ∧ 1 ∈ (st_two_clients.tags 7).clients) ∧
    emitted_signals st0 (tag_client 7 1 st0) =
      [Event.emit_signal (LuaObj.client 1) Signal.tagged [LuaObj.tag 7],
       Event.emit_signal (LuaObj.tag 7) Signal.tagged [LuaObj.client 1]] ∧
    emitted_signals st_two_clients (untag_client 1 7 st_two_clients) =
      [Event.emit_signal (LuaObj.client 1) Signal.untagged [LuaObj.tag 7],
       Event.emit_signal (LuaObj.tag 7) Signal.untagged [LuaObj.client 1]] :=
  ⟨⟨by decide, by decide⟩,
    C9_tagged_untagged_signal_order 7 1 st0 st_two_clients (by decide) (by decide)⟩

/-- C10: detaching a tag that is attached to screen `s` and occurs once in its
tag array deletes that one slot (the tags before and after it keep their
order), clears the tag's screen, leaves the tag's selected flag and client
array and every other screen's array alone, and emits `property::screen` on the
tag and then `tag::detach` on `s` carrying the tag. -/
theorem C10_detach_positional_delete (tag : TagId) (s : ScreenId) (st : State)
    (h : (st.tags tag).screen = some s) (hc : (st.screens s).count tag = 1) :
    (∃ l1 l2, st.screens s = l1 ++ tag :: l2 ∧ tag ∉ l1 ∧ tag ∉ l2 ∧
      (tag_remove_from_screen tag st).screens s = l1 ++ l2) ∧
    ((tag_remove_from_screen tag st).tags tag).screen = none ∧
    ((tag_remove_from_screen tag st).tags tag).selected = (st.tags tag).selected ∧
    ((tag_remove_from_screen tag st).tags tag).clients = (st.tags tag).clients ∧
    (∀ s1, s1 ≠ s → (tag_remove_from_screen tag st).screens s1 = st.screens s1) ∧
    (tag_remove_from_screen tag st).log = st.log ++
      ((if (st.tags tag).selected then [Event.banning_need_update] else []) ++
      [Event.ewmh_update_net_numbers_of_desktop,
       Event.ewmh_update_net_desktop_names,
       Event.emit_signal (LuaObj.tag tag) Signal.property_screen [],
       Event.emit_signal (LuaObj.screen s) Signal.tag_detach [LuaObj.tag tag]]) ∧
    emitted_signals st (tag_remove_from_screen tag st) =
      [Event.emit_signal (LuaObj.tag tag) Signal.property_screen [],
       Event.emit_signal (LuaObj.screen s) Signal.tag_detach [LuaObj.tag tag]] := by
  rw [tag_remove_from_screen_attached tag s st h]
  refine ⟨?_, by simp, by simp, by simp, ?_, rfl, ?_⟩
  · have hmem : tag ∈ st.screens s := List.count_pos_iff.1 (by omega)
    obtain ⟨l1, l2, hl, hn1⟩ := List.eq_append_cons_of_mem hmem
    have hn2 : tag ∉ l2 := by
      intro hin
      have := List.count_pos_iff.2 hin
      rw [hl] at hc
      simp [List.count_append, List.count_eq_zero_of_not_mem hn1] at hc
      omega
    refine ⟨l1, l2, hl, hn1, hn2, ?_⟩
    simp only [Function.update_same]
    rw [hl, List.erase_append_right _ hn1, List.erase_cons_head]
  · intro s1 hs
    simp [Function.update_noteq hs]
  · simp only [emitted_signals, List.drop_left]
    split <;> simp [Event.is_signal]

/-- Concrete instance of the C10 theorem. -/
theorem C10_detach_positional_delete_witness :
    ((st_three_tags.tags 8).screen = some 0 ∧ (st_three_tags.screens 0).count 8 = 1) ∧
    (∃ l1 l2, st_three_tags.screens 0 = l1 ++ 8 :: l2 ∧ 8 ∉ l1 ∧ 8 ∉ l2 ∧
      (tag_remove_from_screen 8 st_three_tags).screens 0 = l1 ++ l2) ∧
    ((tag_remove_from_screen 8 st_three_tags).tags 8).screen = none ∧
    ((tag_remove_from_screen 8 st_three_tags).tags 8).selected = (st_three_tags.tags 8).selected ∧
    ((tag_remove_from_screen 8 st_three_tags).tags 8).clients = (st_three_tags.tags 8).clients ∧
    (∀ s1, s1 ≠ 0 → (tag_remove_from_screen 8 st_three_tags).screens s1 =
      st_three_tags.screens s1) ∧
    (tag_remove_from_screen 8 st_three_tags).log = st_three_tags.log ++
      ((if (st_three_tags.tags 8).selected then [Event.banning_need_update] else []) ++
      [Event.ewmh_update_net_numbers_of_desktop,
       Event.ewmh_update_net_desktop_names,
       Event.emit_signal (LuaObj.tag 8) Signal.property_screen [],
       Event.emit_signal (LuaObj.screen 0) Signal.tag_detach [LuaObj.tag 8]]) ∧
    emitted_signals st_three_tags (tag_remove_from_screen 8 st_three_tags) =
      [Event.emit_signal (LuaObj.tag 8) Signal.property_screen [],
       Event.emit_signal (LuaObj.screen 0) Signal.tag_detach [LuaObj.tag 8]] :=
  ⟨⟨rfl, by decide⟩, C10_detach_positional_delete 8 0 st_three_tags rfl (by decide)⟩

/-- C11: detaching an attached tag calls `banning_need_update` exactly once
when the tag was selected before the call and not at all when it was not; the
desktop-count and desktop-names resyncs are each called exactly once in both
cases. -/
theorem C11_detach_recompute_only_if_selected (tag : TagId) (s : ScreenId) (st : State)
    (h : (st.tags tag).screen = some s) :
    (new_events st (tag_remove_from_screen tag st)).count Event.banning_need_update =
      (if (st.tags tag).selected then 1 else 0) ∧
    (new_events st (tag_remove_from_screen tag st)).count
      Event.ewmh_update_net_numbers_of_desktop = 1 ∧
    (new_events st (tag_remove_from_screen tag st)).count
      Event.ewmh_update_net_desktop_names = 1 := by
  rw [tag_remove_from_screen_attached tag s st h]
  simp only [new_events, List.drop_left]
  cases (st.tags tag).selected <;> simp [List.count_cons]

/-- Concrete instance of the C11 theorem. -/
theorem C11_detach_recompute_only_if_selected_witness :
    (st_second_selected.tags 8).screen = some 0 ∧
    (new_events st_second_selected (tag_remove_from_screen 8 st_second_selected)).count
      Event.banning_need_update = (if (st_second_selected.tags 8).selected then 1 else 0) ∧
    (new_events st_second_selected (tag_remove_from_screen 8 st_second_selected)).count
      Event.ewmh_update_net_numbers_of_desktop = 1 ∧
    (new_events st_second_selected (tag_remove_from_screen 8 st_second_selected)).count
      Event.ewmh_update_net_desktop_names = 1 :=
  ⟨rfl, C11_detach_recompute_only_if_selected 8 0 st_second_selected rfl⟩

theorem first_selected_from_none (st : State) (l : List TagId) (k : Nat)
    (h : ∀ t ∈ l, (st.tags t).selected = false) : first_selected_from st l k = none := by
  induction l generalizing k with
  | nil => rfl
  | cons x xs ih =>
    have hx := h x (by simp)
    simp only [first_selected_from, hx, Bool.false_eq_true, if_false]
    exact ih (k + 1) (fun t ht => h t (by simp [ht]))

theorem first_selected_from_least (st : State) (l : List TagId) (i k : Nat)
    (hi : i < l.length) (hsel : (st.tags l[i]).selected = true)
    (hmin : ∀ j (hj : j < l.length), j < i → (st.tags l[j]).selected = false) :
    first_selected_from st l k = some (k + i) := by
  induction l generalizing i k with
  | nil => simp at hi
  | cons x xs ih =>
    cases i with
    | zero =>
      simp only [List.getElem_cons_zero] at hsel
      simp [first_selected_from, hsel]
    | succ i =>
      have h0 : (st.tags x).selected = false := by
        have := hmin 0 (by simp) (by omega)
        simpa using this
      have hi1 : i < xs.length := by simpa using hi
      have := ih i (k + 1) hi1 (by simpa using hsel) (fun j hj hlt => by
        have := hmin (j + 1) (by simpa using hj) (by omega)
        simpa using this)
      simp only [first_selected_from, h0, Bool.false_eq_true, if_false, this]
      congr 1
      omega

/-- C12: `tags_get_first_selected_index` returns the least position of the
screen's tag array whose tag is selected, and returns 0 when no tag of the
array is selected (in particular on an empty array); so 0 is the result both
when nothing is selected and when the tag at position 0 is selected. -/
theorem C12_first_selected_index (st : State) (screen : ScreenId) (i : Nat)
    (hi : i < (st.screens screen).length)
    (hsel : (st.tags (st.screens screen)[i]).selected = true)
    (hmin : ∀ j (hj : j < (st.screens screen).length), j < i →
      (st.tags (st.screens screen)[j]).selected = false)
    (st2 : State) (screen2 : ScreenId)
    (hnone : ∀ t ∈ st2.screens screen2, (st2.tags t).selected = false) :
    tags_get_first_selected_index screen st = (i : Int) ∧
    tags_get_first_selected_index screen2 st2 = 0 ∧
    (i = 0 → tags_get_first_selected_index screen st =
      tags_get_first_selected_index screen2 st2) := by
  have h1 : tags_get_first_selected_index screen st = (i : Int) := by
    unfold tags_get_first_selected_index
    rw [first_selected_from_least st _ i 0 hi hsel hmin]
    simp
  have h2 : tags_get_first_selected_index screen2 st2 = 0 := by
    unfold tags_get_first_selected_index
    rw [first_selected_from_none st2 _ 0 hnone]
  refine ⟨h1, h2, ?_⟩
  intro h0
  rw [h1, h2, h0]
  rfl

/-- Concrete instance of the C12 theorem: with tag 7 at position 0 selected
the result is 0, and with no tag selected the result is 0 as well. -/
theorem C12_first_selected_index_witness :
    tags_get_first_selected_index 0 st_first_selected = ((0 : Nat) : Int) ∧
    tags_get_first_selected_index 0 st_three_tags = 0 ∧
    (0 = 0 → tags_get_first_selected_index 0 st_first_selected =
      tags_get_first_selected_index 0 st_three_tags) :=
  C12_first_selected_index st_first_selected 0 0 (by decide) (by decide) (by decide)
    st_three_tags 0 (by decide)

theorem tag_remove_from_screen_screen (tag : TagId) (st : State) :
    ((tag_remove_from_screen tag st).tags tag).screen = none := by
  cases hs : (st.tags tag).screen with
  | none => rw [tag_remove_from_screen_detached tag st hs, hs]
  | some scr => rw [tag_remove_from_screen_attached tag scr st hs]; simp

theorem tag_remove_from_screen_screens_inv (tag : TagId) (st : State) (hinv : ScreenInv st)
    (s : ScreenId) :
    (tag_remove_from_screen tag st).screens s = (st.screens s).erase tag := by
  have hc := hinv tag s
  cases hs : (st.tags tag).screen with
  | none =>
    rw [tag_remove_from_screen_detached tag st hs]
    rw [hs] at hc
    simp only [reduceCtorEq, if_false] at hc
    rw [List.erase_of_not_mem (List.count_eq_zero.1 hc)]
  | some scr =>
    rw [tag_remove_from_screen_attached tag scr st hs]
    by_cases e : s = scr
    · subst e
      simp
    · rw [hs] at hc
      have hne : ¬ (some scr = some s) := fun h => e (Option.some.inj h).symm
      simp only [hne, if_false] at hc
      simp [Function.update_noteq e, List.erase_of_not_mem (List.count_eq_zero.1 hc)]

/-- C13: in a state satisfying I1/I2, writing a valid 1-based screen number `k`
to the `screen` property succeeds and leaves the tag as the last element of
the tag array of screen `k` (the previous array with the tag deleted, then the
tag appended), in no other screen's array, and the property then reads `k`;
writing `nil` succeeds and leaves the tag in no screen's array, and the
property then reads nothing. -/
theorem C13_set_screen_detach_then_attach (nscreens : Nat) (tag : TagId) (k : Int)
    (st : State) (hinv : ScreenInv st) (hk : 1 ≤ k ∧ k ≤ (nscreens : Int)) :
    (∃ st1, luaA_tag_set_screen nscreens tag (some k) st = some st1 ∧
      st1.screens (k - 1).toNat = (st.screens (k - 1).toNat).erase tag ++ [tag] ∧
      (st1.screens (k - 1).toNat).getLast? = some tag ∧
      (∀ s, tag ∈ st1.screens s → s = (k - 1).toNat) ∧
      luaA_tag_get_screen tag st1 = some k) ∧
    (∃ st2, luaA_tag_set_screen nscreens tag none st = some st2 ∧
      (∀ s, tag ∉ st2.screens s) ∧
      luaA_tag_get_screen tag st2 = none) := by
  have hdet := tag_remove_from_screen_screen tag st
  have hinv1 := ScreenInv_detach tag st hinv
  constructor
  · have hchk : ¬ (k - 1 < 0 ∨ k - 1 ≥ (nscreens : Int)) := by omega
    have hne : k - 1 ≠ -1 := by omega
    refine ⟨tag_append_to_screen tag (k - 1).toNat (tag_remove_from_screen tag st), ?_, ?_, ?_, ?_, ?_⟩
    · unfold luaA_tag_set_screen
      simp only [if_neg hchk, ne_eq, hne, not_false_eq_true, if_true]
    · rw [tag_append_to_screen_detached tag _ _ hdet]
      simp [tag_remove_from_screen_screens_inv tag st hinv]
    · rw [tag_append_to_screen_detached tag _ _ hdet]
      simp
    · intro s hs
      have hinv2 := ScreenInv_attach tag (k - 1).toNat _ hinv1 tag s
      have hpos := List.count_pos_iff.2 hs
      have hscr : ((tag_append_to_screen tag (k - 1).toNat
          (tag_remove_from_screen tag st)).tags tag).screen = some (k - 1).toNat := by
        rw [tag_append_to_screen_detached tag _ _ hdet]
        simp
      rw [hscr] at hinv2
      by_cases e : some (k - 1).toNat = some s
      · exact (Option.some.inj e).symm
      · simp only [e, if_false] at hinv2
        omega
    · rw [luaA_tag_get_screen, tag_append_to_screen_detached tag _ _ hdet]
      simp only [Function.update_same]
      congr 1
      omega
  · refine ⟨tag_remove_from_screen tag st, ?_, ?_, ?_⟩
    · simp [luaA_tag_set_screen]
    · intro s hs
      have := hinv1 tag s
      rw [hdet] at this
      simp only [reduceCtorEq, if_false] at this
      exact (List.count_eq_zero.1 this) hs
    · rw [luaA_tag_get_screen, hdet]

theorem ScreenInv_st0 : ScreenInv st0 := by
  intro t s
  simp [st0, tag0]

/-- Concrete instance of the C13 theorem: tags 7 and 8 are on screen 0 (number
1) of two screens, and the screen of tag 7 is set to 1 again, or to nil. -/
theorem C13_set_screen_detach_then_attach_witness :
    (∃ st1, luaA_tag_set_screen 2 7 (some 1) st_two_attached = some st1 ∧
      st1.screens ((1 : Int) - 1).toNat =
        (st_two_attached.screens ((1 : Int) - 1).toNat).erase 7 ++ [7] ∧
      (st1.screens ((1 : Int) - 1).toNat).getLast? = some 7 ∧
      (∀ s, 7 ∈ st1.screens s → s = ((1 : Int) - 1).toNat) ∧
      luaA_tag_get_screen 7 st1 = some 1) ∧
    (∃ st2, luaA_tag_set_screen 2 7 none st_two_attached = some st2 ∧
      (∀ s, 7 ∉ st2.screens s) ∧
      luaA_tag_get_screen 7 st2 = none) :=
  C13_set_screen_detach_then_attach 2 7 1 st_two_attached
    (ScreenInv_run _ st0 ScreenInv_st0) (by decide)

theorem RefBalance_attach (r0 : Nat) (t tag : TagId) (s : ScreenId) (st : State)
    (h : RefBalance r0 t st) : RefBalance r0 t (tag_append_to_screen tag s st) := by
  cases hs : (st.tags tag).screen with
  | some x =>
    rw [tag_append_to_screen_attached tag s st (by simp [hs])]
    exact h
  | none =>
    rw [tag_append_to_screen_detached tag s st hs]
    unfold RefBalance held_refs at *
    by_cases e : t = tag
    · subst e
      simp [hs] at h ⊢
      omega
    · simpa [Function.update_noteq e] using h

theorem RefBalance_detach (r0 : Nat) (t tag : TagId) (st : State)
    (h : RefBalance r0 t st) : RefBalance r0 t (tag_remove_from_screen tag st) := by
  cases hs : (st.tags tag).screen with
  | none =>
    rw [tag_remove_from_screen_detached tag st hs]
    exact h
  | some scr =>
    rw [tag_remove_from_screen_attached tag scr st hs]
    unfold RefBalance held_refs at *
    by_cases e : t = tag
    · subst e
      simp [hs] at h ⊢
      omega
    · simpa [Function.update_noteq e] using h

theorem RefBalance_tag_client (r0 : Nat) (t tag : TagId) (c : ClientId) (st : State)
    (h : RefBalance r0 t st) : RefBalance r0 t (tag_client tag c st) := by
  by_cases hm : c ∈ (st.tags tag).clients
  · rw [tag_client_member tag c st hm]
    exact h
  · rw [tag_client_absent tag c st hm]
    unfold RefBalance held_refs at *
    by_cases e : t = tag
    · subst e
      simp at h ⊢
      omega
    · simpa [Function.update_noteq e] using h

theorem RefBalance_untag_client (r0 : Nat) (t tag : TagId) (c : ClientId) (st : State)
    (h : RefBalance r0 t st) : RefBalance r0 t (untag_client c tag st) := by
  by_cases hm : c ∈ (st.tags tag).clients
  · rw [untag_client_member c tag st hm]
    unfold RefBalance held_refs at *
    by_cases e : t = tag
    · subst e
      have hpos : 0 < (st.tags t).clients.length := List.length_pos_of_mem hm
      simp [List.length_erase_of_mem hm] at h ⊢
      omega
    · simpa [Function.update_noteq e] using h
  · rw [untag_client_absent c tag st hm]
    exact h

theorem RefBalance_run (r0 : Nat) (t : TagId) (ops : List ProtoOp) (st : State)
    (h : RefBalance r0 t st) : RefBalance r0 t (run_proto_ops ops st) := by
  induction ops generalizing st with
  | nil => exact h
  | cons op ops ih =>
    have hstep : RefBalance r0 t (op.apply st) := by
      cases op with
      | attach tag s => exact RefBalance_attach r0 t tag s st h
      | detach tag => exact RefBalance_detach r0 t tag st h
      | tag_client tag c => exact RefBalance_tag_client r0 t tag c st h
      | untag_client c tag => exact RefBalance_untag_client r0 t tag c st h
    exact ih (op.apply st) hstep

/-- C14: starting from a detached tag with no clients, after any sequence of
attach, detach, `tag_client` and `untag_client` calls (on any tags), the tag's
reference count exceeds its starting count by exactly one if it is attached to
a screen, plus the number of clients in its client array. -/
theorem C14_reference_balance (st : State) (t : TagId)
    (hscr : (st.tags t).screen = none) (hcl : (st.tags t).clients = [])
    (ops : List ProtoOp) :
    ((run_proto_ops ops st).tags t).refs =
      (st.tags t).refs +
        ((if ((run_proto_ops ops st).tags t).screen.isSome then 1 else 0) +
          ((run_proto_ops ops st).tags t).clients.length) := by
  have h0 : RefBalance (st.tags t).refs t st := by
    simp [RefBalance, held_refs, hscr, hcl]
  exact RefBalance_run (st.tags t).refs t ops st h0

/-- Concrete instance of the C14 theorem. -/
theorem C14_reference_balance_witness :
    ((st0.tags 7).screen = none ∧ (st0.tags 7).clients = []) ∧
    ((run_proto_ops [ProtoOp.attach 7 0, ProtoOp.tag_client 7 1, ProtoOp.tag_client 7 1,
        ProtoOp.tag_client 7 2, ProtoOp.untag_client 1 7, ProtoOp.attach 7 1,
        ProtoOp.detach 7] st0).tags 7).refs =
      (st0.tags 7).refs +
        ((if ((run_proto_ops [ProtoOp.attach 7 0, ProtoOp.tag_client 7 1, ProtoOp.tag_client 7 1,
            ProtoOp.tag_client 7 2, ProtoOp.untag_client 1 7, ProtoOp.attach 7 1,
            ProtoOp.detach 7] st0).tags 7).screen.isSome then 1 else 0) +
          ((run_proto_ops [ProtoOp.attach 7 0, ProtoOp.tag_client 7 1, ProtoOp.tag_client 7 1,
            ProtoOp.tag_client 7 2, ProtoOp.untag_client 1 7, ProtoOp.attach 7 1,
            ProtoOp.detach 7] st0).tags 7).clients.length) :=
  ⟨⟨rfl, rfl⟩, C14_reference_balance st0 7 rfl rfl _⟩

theorem tag_view_changed (tag : TagId) (v : Bool) (st : State)
    (h : (st.tags tag).selected ≠ v) :
    tag_view tag v st =
      { tags := Function.update st.tags tag { st.tags tag with selected := v }
        screens := st.screens
        log := st.log ++
          ((if (st.tags tag).screen.isSome then
              [Event.banning_need_update, Event.ewmh_update_net_current_desktop]
            else []) ++
          [Event.emit_signal (LuaObj.tag tag) Signal.property_selected []]) } := by
  unfold tag_view
  simp only [ne_eq, h, not_false_eq_true, if_true]
  apply State.ext_fields
  · split <;> simp
  · split <;> simp
  · cases hs : (st.tags tag).screen <;> simp [hs]

/-- C15: setting `selected` to a value different from the current one stores
the value and logs, when the tag has a screen, one `banning_need_update`, one
`ewmh_update_net_current_desktop` and then one `property::selected` on the tag,
in this order; when the tag has no screen it logs the `property::selected`
signal only.  Nothing else changes. -/
theorem C15_set_selected_changed (tag : TagId) (v : Bool) (st : State)
    (h : (st.tags tag).selected ≠ v) :
    ((tag_view tag v st).tags tag).selected = v ∧
    (tag_view tag v st).tags = Function.update st.tags tag { st.tags tag with selected := v } ∧
    (tag_view tag v st).screens = st.screens ∧
    emitted_signals st (tag_view tag v st) =
      [Event.emit_signal (LuaObj.tag tag) Signal.property_selected []] ∧
    ((st.tags tag).screen ≠ none →
      new_events st (tag_view tag v st) =
        [Event.banning_need_update, Event.ewmh_update_net_current_desktop,
         Event.emit_signal (LuaObj.tag tag) Signal.property_selected []]) ∧
    ((st.tags tag).screen = none →
      new_events st (tag_view tag v st) =
        [Event.emit_signal (LuaObj.tag tag) Signal.property_selected []]) := by
  rw [tag_view_changed tag v st h]
  refine ⟨by simp, rfl, rfl, ?_, ?_, ?_⟩
  · simp only [emitted_signals, List.drop_left]
    split <;> simp [Event.is_signal]
  · intro hs
    cases hx : (st.tags tag).screen with
    | none => exact absurd hx hs
    | some x => simp [new_events]
  · intro hs
    simp [new_events, hs]

/-- Concrete instance of the C15 theorem: the attached, unselected tag 8 is selected. -/
theorem C15_set_selected_changed_witness :
    (st_three_tags.tags 8).selected ≠ true ∧
    ((tag_view 8 true st_three_tags).tags 8).selected = true ∧
    (tag_view 8 true st_three_tags).tags =
      Function.update st_three_tags.tags 8 { st_three_tags.tags 8 with selected := true } ∧
    (tag_view 8 true st_three_tags).screens = st_three_tags.screens ∧
    emitted_signals st_three_tags (tag_view 8 true st_three_tags) =
      [Event.emit_signal (LuaObj.tag 8) Signal.property_selected []] ∧
    ((st_three_tags.tags 8).screen ≠ none →
      new_events st_three_tags (tag_view 8 true st_three_tags) =
        [Event.banning_need_update, Event.ewmh_update_net_current_desktop,
         Event.emit_signal (LuaObj.tag 8) Signal.property_selected []]) ∧
    ((st_three_tags.tags 8).screen = none →
      new_events st_three_tags (tag_view 8 true st_three_tags) =
        [Event.emit_signal (LuaObj.tag 8) Signal.property_selected []]) :=
  ⟨by decide, C15_set_selected_changed 8 true st_three_tags (by decide)⟩

theorem flatMap_congr_mem {α β : Type} (l : List α) (f g : α → List β)
    (h : ∀ x ∈ l, f x = g x) : l.flatMap f = l.flatMap g := by
  induction l with
  | nil => rfl
  | cons x xs ih =>
    rw [List.flatMap_cons, List.flatMap_cons, h x (by simp),
      ih (fun y hy => h y (by simp [hy]))]

theorem tag_view_screen_field (tag : TagId) (v : Bool) (st : State) (t : TagId) :
    ((tag_view tag v st).tags t).screen = (st.tags t).screen := by
  rw [tag_view_tags]
  by_cases e : t = tag
  · subst e
    simp
  · simp [Function.update_noteq e]

theorem tag_view_only_fold_screen_field (tgt : TagId) (l : List TagId) (st : State) (t : TagId) :
    ((l.foldl (fun s x => tag_view x (decide (x = tgt)) s) st).tags t).screen =
      (st.tags t).screen := by
  induction l generalizing st with
  | nil => rfl
  | cons x xs ih => rw [List.foldl_cons, ih, tag_view_screen_field]

theorem tag_view_only_fold_noop (tgt : TagId) (l : List TagId) (st : State)
    (h : ∀ x ∈ l, (st.tags x).selected = decide (x = tgt)) :
    l.foldl (fun s x => tag_view x (decide (x = tgt)) s) st = st := by
  induction l with
  | nil => rfl
  | cons x xs ih =>
    rw [List.foldl_cons, tag_view_same x _ st (h x (by simp))]
    exact ih (fun y hy => h y (by simp [hy]))

/-- The log of the `tag_view_only` loop over distinct attached tags: three
events for every tag whose selected flag changes, none for the others. -/
theorem tag_view_only_fold_log (tgt : TagId) (l : List TagId) (st : State)
    (hnodup : l.Nodup) (hatt : ∀ x ∈ l, (st.tags x).screen ≠ none) :
    (l.foldl (fun s x => tag_view x (decide (x = tgt)) s) st).log = st.log ++
      l.flatMap (fun x =>
        if (st.tags x).selected ≠ decide (x = tgt) then
          [Event.banning_need_update, Event.ewmh_update_net_current_desktop,
           Event.emit_signal (LuaObj.tag x) Signal.property_selected []]
        else []) := by
  induction l generalizing st with
  | nil => simp
  | cons x xs ih =>
    have hx : x ∉ xs := (List.nodup_cons.1 hnodup).1
    have hxs : xs.Nodup := (List.nodup_cons.1 hnodup).2
    have hatt1 : ∀ y ∈ xs, ((tag_view x (decide (x = tgt)) st).tags y).screen ≠ none := by
      intro y hy
      rw [tag_view_screen_field]
      exact hatt y (by simp [hy])
    rw [List.foldl_cons, ih _ hxs hatt1, List.flatMap_cons]
    have hsame : ∀ y ∈ xs, ((tag_view x (decide (x = tgt)) st).tags y) = st.tags y := by
      intro y hy
      have hne : y ≠ x := fun e => hx (e ▸ hy)
      rw [tag_view_tags, Function.update_noteq hne]
    rw [flatMap_congr_mem xs _
      (fun y => if (st.tags y).selected ≠ decide (y = tgt) then
          [Event.banning_need_update, Event.ewmh_update_net_current_desktop,
           Event.emit_signal (LuaObj.tag y) Signal.property_selected []]
        else [])
      (fun y hy => by rw [hsame y hy])]
    have hxa : (st.tags x).screen.isSome = true := by
      have := hatt x (by simp)
      cases hs : (st.tags x).screen with
      | none => exact absurd hs this
      | some s => rfl
    by_cases hc : (st.tags x).selected = decide (x = tgt)
    · rw [tag_view_same x _ st hc]
      simp [hc]
    · rw [tag_view_changed x _ st hc]
      simp [hc, hxa]

theorem selected_signals_of_flatMap (st : State) (tgt : TagId) (l : List TagId) :
    (l.flatMap (fun x =>
        if (st.tags x).selected ≠ decide (x = tgt) then
          [Event.banning_need_update, Event.ewmh_update_net_current_desktop,
           Event.emit_signal (LuaObj.tag x) Signal.property_selected []]
        else [])).filter Event.is_signal =
      (l.filter (fun x => (st.tags x).selected != decide (x = tgt))).map
        (fun x => Event.emit_signal (LuaObj.tag x) Signal.property_selected []) := by
  induction l with
  | nil => rfl
  | cons x xs ih =>
    rw [List.flatMap_cons, List.filter_append, ih]
    by_cases hc : (st.tags x).selected = decide (x = tgt)
    · simp [hc]
    · have hb : ((st.tags x).selected != decide (x = tgt)) = true := by
        simpa [bne_iff_ne] using hc
      simp only [ne_eq, hc, not_false_eq_true, if_true]
      have hf : List.filter (fun x => (st.tags x).selected != decide (x = tgt)) (x :: xs) =
          x :: List.filter (fun x => (st.tags x).selected != decide (x = tgt)) xs :=
        List.filter_cons_of_pos hb
      rw [hf]
      simp [Event.is_signal]

/-- C17: on a screen whose tag array holds pairwise distinct tags, all attached
to that screen, `tag_view_only_byindex` with a valid index `i` emits
`property::selected` once for each tag whose selected flag differs from
"this tag is the one at position `i`", in the array's order, and emits no
other signal; the tag at position `j` is that target exactly when `j = i`; and
a second call with the same index returns the state unchanged. -/
theorem C17_view_only_emissions_and_idempotence (st : State) (screen : ScreenId) (i : Nat)
    (hnodup : (st.screens screen).Nodup)
    (hatt : ∀ t ∈ st.screens screen, (st.tags t).screen = some screen)
    (hi : i < (st.screens screen).length) :
    ∃ st1, tag_view_only_byindex screen (i : Int) st = some st1 ∧
      emitted_signals st st1 =
        ((st.screens screen).filter
          (fun x => (st.tags x).selected != decide (x = (st.screens screen)[i]))).map
          (fun x => Event.emit_signal (LuaObj.tag x) Signal.property_selected []) ∧
      (∀ j (hj : j < (st.screens screen).length),
        (st.screens screen)[j] = (st.screens screen)[i] ↔ j = i) ∧
      tag_view_only_byindex screen (i : Int) st1 = some st1 := by
  have htgt : (st.tags (st.screens screen)[i]).screen = some screen :=
    hatt _ (List.getElem_mem hi)
  have hng : ¬ ((i : Int) < 0 ∨ (i : Int) ≥ ((st.screens screen).length : Int)) := by omega
  have hcall : ∀ s : State, s.screens screen = st.screens screen →
      (s.tags (st.screens screen)[i]).screen = some screen →
      tag_view_only_byindex screen (i : Int) s =
        some ((st.screens screen).foldl
          (fun s x => tag_view x (decide (x = (st.screens screen)[i])) s) s) := by
    intro s hs1 hs2
    unfold tag_view_only_byindex
    rw [hs1]
    simp only [hng, if_false, Int.toNat_ofNat, List.getElem?_eq_getElem hi]
    rw [tag_view_only_attached _ screen s hs2, hs1]
  refine ⟨(st.screens screen).foldl
    (fun s x => tag_view x (decide (x = (st.screens screen)[i])) s) st, ?_, ?_, ?_, ?_⟩
  · exact hcall st rfl htgt
  · unfold emitted_signals
    rw [tag_view_only_fold_log _ _ st hnodup (fun x hx => by simp [hatt x hx]),
      List.drop_left, selected_signals_of_flatMap]
  · intro j hj
    exact hnodup.getElem_inj_iff
  · rw [hcall _ (by rw [tag_view_only_fold_screens])
      (by rw [tag_view_only_fold_screen_field]; exact htgt)]
    congr 1
    apply tag_view_only_fold_noop
    intro x hx
    rw [tag_view_only_fold_selected]
    simp [hx]

/-- Concrete instance of the C17 theorem: tag 7 is selected on screen 0 and the
index 1 (tag 8) is viewed: `property::selected` is emitted on 7, then on 8. -/
theorem C17_view_only_emissions_and_idempotence_witness :
    ∃ st1, tag_view_only_byindex 0 ((1 : Nat) : Int) st_first_selected = some st1 ∧
      emitted_signals st_first_selected st1 =
        ((st_first_selected.screens 0).filter
          (fun x => (st_first_selected.tags x).selected !=
            decide (x = (st_first_selected.screens 0)[1]))).map
          (fun x => Event.emit_signal (LuaObj.tag x) Signal.property_selected []) ∧
      (∀ j (hj : j < (st_first_selected.screens 0).length),
        (st_first_selected.screens 0)[j] = (st_first_selected.screens 0)[1] ↔ j = 1) ∧
      tag_view_only_byindex 0 ((1 : Nat) : Int) st1 = some st1 :=
  C17_view_only_emissions_and_idempotence st_first_selected 0 1
    (by decide) (by decide) (by decide)

theorem lua_table_find_iff (c : ClientId) (table : List ClientId) :
    lua_table_find c table = true ↔ c ∈ table := by
  induction table with
  | nil => simp [lua_table_find]
  | cons x xs ih =>
    by_cases h : x = c
    · simp [lua_table_find, h]
    · simp [lua_table_find, h, ih, Ne.symm h]

theorem untag_client_member_log (c : ClientId) (t : TagId) (st : State)
    (h : c ∈ (st.tags t).clients) :
    (untag_client c t st).log = st.log ++ untag_events t c := by
  rw [untag_client_member c t st h]
  rfl

theorem untag_client_member_clients (c : ClientId) (t : TagId) (st : State)
    (h : c ∈ (st.tags t).clients) :
    ((untag_client c t st).tags t).clients = (st.tags t).clients.erase c := by
  rw [untag_client_member c t st h]
  simp

theorem tag_client_absent_log (t : TagId) (c : ClientId) (st : State)
    (h : c ∉ (st.tags t).clients) :
    (tag_client t c st).log = st.log ++ tag_events t c := by
  rw [tag_client_absent t c st h]
  rfl

theorem tag_client_absent_clients (t : TagId) (c : ClientId) (st : State)
    (h : c ∉ (st.tags t).clients) :
    ((tag_client t c st).tags t).clients = (st.tags t).clients ++ [c] := by
  rw [tag_client_absent t c st h]
  simp

theorem luaA_tag_clients_eq (tag : TagId) (table : List ClientId) (st : State) :
    luaA_tag_clients tag (some table) st =
      (((table.foldl (fun s c => tag_client tag c s)
          (luaA_tag_clients_untag_loop tag table (st.tags tag).clients.length 0 st)).tags
            tag).clients,
       table.foldl (fun s c => tag_client tag c s)
          (luaA_tag_clients_untag_loop tag table (st.tags tag).clients.length 0 st)) := rfl

/-- What the untag loop does, for any fuel and start index: it logs the untag
events of a list `us` of clients that were in the array and are not in the
table, leaves a sublist of the array, and keeps every client that is in the table. -/
theorem luaA_tag_clients_untag_loop_spec (tag : TagId) (table : List ClientId) :
    ∀ (fuel i : Nat) (st : State), ∃ us : List ClientId,
      (luaA_tag_clients_untag_loop tag table fuel i st).log =
        st.log ++ us.flatMap (untag_events tag) ∧
      (∀ c ∈ us, c ∈ (st.tags tag).clients ∧ c ∉ table) ∧
      ((luaA_tag_clients_untag_loop tag table fuel i st).tags tag).clients.Sublist
        (st.tags tag).clients ∧
      (∀ c ∈ (st.tags tag).clients, c ∈ table →
        c ∈ ((luaA_tag_clients_untag_loop tag table fuel i st).tags tag).clients) := by
  intro fuel
  induction fuel with
  | zero =>
    intro i st
    exact ⟨[], by simp [luaA_tag_clients_untag_loop, foreach], by simp,
      List.Sublist.refl _, fun c hc _ => hc⟩
  | succ n ih =>
    intro i st
    cases hx : (st.tags tag).clients[i]? with
    | none =>
      have hr : luaA_tag_clients_untag_loop tag table (n + 1) i st = st := by
        simp [luaA_tag_clients_untag_loop, foreach, hx]
      rw [hr]
      exact ⟨[], by simp, by simp, List.Sublist.refl _, fun c hc _ => hc⟩
    | some x =>
      have hxm : x ∈ (st.tags tag).clients := by
        obtain ⟨hlt, hxe⟩ := List.getElem?_eq_some.1 hx
        exact hxe ▸ List.getElem_mem hlt
      by_cases hf : lua_table_find x table = true
      · have hstep : luaA_tag_clients_untag_loop tag table (n + 1) i st =
            luaA_tag_clients_untag_loop tag table n (i + 1) st := by
          simp [luaA_tag_clients_untag_loop, foreach, hx, hf]
        rw [hstep]
        exact ih (i + 1) st
      · have hxn : x ∉ table := fun h => hf ((lua_table_find_iff x table).2 h)
        obtain ⟨us, h1, h2, h3, h4⟩ := ih (i + 1) (untag_client x tag st)
        have hstep : luaA_tag_clients_untag_loop tag table (n + 1) i st =
            luaA_tag_clients_untag_loop tag table n (i + 1) (untag_client x tag st) := by
          simp [luaA_tag_clients_untag_loop, foreach, hx, hf]
        rw [hstep]
        rw [untag_client_member_log x tag st hxm] at h1
        rw [untag_client_member_clients x tag st hxm] at h2 h3 h4
        refine ⟨x :: us, ?_, ?_, ?_, ?_⟩
        · rw [h1, List.flatMap_cons, List.append_assoc]
        · intro c hc
          rcases List.mem_cons.1 hc with rfl | hc
          · exact ⟨hxm, hxn⟩
          · exact ⟨List.mem_of_mem_erase (h2 c hc).1, (h2 c hc).2⟩
        · exact h3.trans (List.erase_sublist x _)
        · intro c hc hct
          have hne : c ≠ x := fun e => hxn (e ▸ hct)
          exact h4 c ((List.mem_erase_of_ne hne).2 hc) hct

/-- What the tagging loop of `luaA_tag_clients` does: it appends a duplicate-free
list `ts` of table clients that were not in the array, and logs their tag events. -/
theorem luaA_tag_clients_tag_loop_spec (tag : TagId) (l : List ClientId) :
    ∀ st : State, ∃ ts : List ClientId,
      (l.foldl (fun s c => tag_client tag c s) st).log =
        st.log ++ ts.flatMap (tag_events tag) ∧
      (∀ c ∈ ts, c ∈ l ∧ c ∉ (st.tags tag).clients) ∧
      ((l.foldl (fun s c => tag_client tag c s) st).tags tag).clients =
        (st.tags tag).clients ++ ts ∧
      ts.Nodup := by
  induction l with
  | nil =>
    intro st
    exact ⟨[], by simp, by simp, by simp, List.nodup_nil⟩
  | cons x xs ih =>
    intro st
    rw [List.foldl_cons]
    by_cases hm : x ∈ (st.tags tag).clients
    · rw [tag_client_member tag x st hm]
      obtain ⟨ts, h1, h2, h3, h4⟩ := ih st
      exact ⟨ts, h1, fun c hc => ⟨by simp [(h2 c hc).1], (h2 c hc).2⟩, h3, h4⟩
    · obtain ⟨ts, h1, h2, h3, h4⟩ := ih (tag_client tag x st)
      rw [tag_client_absent_log tag x st hm] at h1
      rw [tag_client_absent_clients tag x st hm] at h2 h3
      refine ⟨x :: ts, ?_, ?_, ?_, ?_⟩
      · rw [h1, List.flatMap_cons, List.append_assoc]
      · intro c hc
        rcases List.mem_cons.1 hc with rfl | hc
        · exact ⟨by simp, hm⟩
        · have := (h2 c hc).2
          exact ⟨by simp [(h2 c hc).1], fun h => this (by simp [h])⟩
      · rw [h3]
        simp
      · refine List.nodup_cons.2 ⟨?_, h4⟩
        intro hx
        exact (h2 x hx).2 (by simp)

/-- C16: when client `c` is both in the tag's client array and in the table
handed to the bulk accessor, the events of the call are exactly the untag
events of some clients `us` followed by the tag events of some clients `ts`,
`c` is in neither list, `c` is still in the array afterwards, and no event of
the call names `c`. -/
theorem C16_bulk_set_no_spurious_toggle (tag : TagId) (table : List ClientId) (st : State)
    (c : ClientId) (hO : c ∈ (st.tags tag).clients) (hN : c ∈ table) :
    ∃ us ts : List ClientId,
      new_events st (luaA_tag_clients tag (some table) st).2 =
        us.flatMap (untag_events tag) ++ ts.flatMap (tag_events tag) ∧
      c ∉ us ∧ c ∉ ts ∧
      c ∈ ((luaA_tag_clients tag (some table) st).2.tags tag).clients ∧
      ∀ e ∈ new_events st (luaA_tag_clients tag (some table) st).2,
        Event.names_client c e = false := by
  obtain ⟨us, u1, u2, _, u4⟩ :=
    luaA_tag_clients_untag_loop_spec tag table (st.tags tag).clients.length 0 st
  obtain ⟨ts, t1, t2, t3, _⟩ := luaA_tag_clients_tag_loop_spec tag table
    (luaA_tag_clients_untag_loop tag table (st.tags tag).clients.length 0 st)
  have hus : c ∉ us := fun h => (u2 c h).2 hN
  have hts : c ∉ ts := fun h => (t2 c h).2 (u4 c hO hN)
  have hlog : new_events st (luaA_tag_clients tag (some table) st).2 =
      us.flatMap (untag_events tag) ++ ts.flatMap (tag_events tag) := by
    rw [luaA_tag_clients_eq]
    simp only [new_events]
    rw [t1, u1, List.append_assoc, List.drop_left]
  refine ⟨us, ts, hlog, hus, hts, ?_, ?_⟩
  · rw [luaA_tag_clients_eq]
    simp only
    rw [t3]
    exact List.mem_append_left _ (u4 c hO hN)
  · intro e he
    rw [hlog] at he
    rcases List.mem_append.1 he with he | he
    · obtain ⟨x, hx, hex⟩ := List.mem_flatMap.1 he
      have hne : x ≠ c := fun h => hus (h ▸ hx)
      simp only [untag_events, List.mem_cons, List.mem_singleton, List.not_mem_nil,
        or_false] at hex
      rcases hex with rfl | rfl | rfl | rfl <;> simp [Event.names_client, hne, Ne.symm hne]
    · obtain ⟨x, hx, hex⟩ := List.mem_flatMap.1 he
      have hne : x ≠ c := fun h => hts (h ▸ hx)
      simp only [tag_events, List.mem_cons, List.mem_singleton, List.not_mem_nil,
        or_false] at hex
      rcases hex with rfl | rfl | rfl | rfl <;> simp [Event.names_client, hne, Ne.symm hne]

/-- Concrete instance of the C16 theorem: tag 7 holds clients 1 and 2, the
table holds 2 and 3, and client 2 is in both. -/
theorem C16_bulk_set_no_spurious_toggle_witness :
    (2 ∈ (st_two_clients.tags 7).clients ∧ 2 ∈ [2, 3]) ∧
    ∃ us ts : List ClientId,
      new_events st_two_clients (luaA_tag_clients 7 (some [2, 3]) st_two_clients).2 =
        us.flatMap (untag_events 7) ++ ts.flatMap (tag_events 7) ∧
      2 ∉ us ∧ 2 ∉ ts ∧
      2 ∈ ((luaA_tag_clients 7 (some [2, 3]) st_two_clients).2.tags 7).clients ∧
      ∀ e ∈ new_events st_two_clients (luaA_tag_clients 7 (some [2, 3]) st_two_clients).2,
        Event.names_client 2 e = false :=
  ⟨⟨by decide, by decide⟩,
    C16_bulk_set_no_spurious_toggle 7 [2, 3] st_two_clients 2 (by decide) (by decide)⟩

theorem foreach_invariant {σ α : Type} (arr : σ → List α) (body : α → σ → σ) (P : σ → Prop)
    (hb : ∀ x s, P s → P (body x s)) :
    ∀ (fuel i : Nat) (st : σ), P st → P (foreach arr body fuel i st) := by
  intro fuel
  induction fuel with
  | zero => intro i st h; exact h
  | succ n ih =>
    intro i st h
    cases hx : (arr st)[i]? with
    | none => simpa [foreach, hx] using h
    | some x =>
      simp only [foreach, hx]
      exact ih (i + 1) _ (hb x st h)

theorem tag_client_nodup (t tag : TagId) (c : ClientId) (st : State)
    (h : (st.tags t).clients.Nodup) : ((tag_client tag c st).tags t).clients.Nodup := by
  by_cases hm : c ∈ (st.tags tag).clients
  · rw [tag_client_member tag c st hm]
    exact h
  · rw [tag_client_absent tag c st hm]
    by_cases e : t = tag
    · subst e
      simp only [Function.update_same]
      exact List.Nodup.append h (List.nodup_singleton c) (by simpa using hm)
    · simpa [Function.update_noteq e] using h

theorem untag_client_nodup (t tag : TagId) (c : ClientId) (st : State)
    (h : (st.tags t).clients.Nodup) : ((untag_client c tag st).tags t).clients.Nodup := by
  by_cases hm : c ∈ (st.tags tag).clients
  · rw [untag_client_member c tag st hm]
    by_cases e : t = tag
    · subst e
      simp only [Function.update_same]
      exact h.erase c
    · simpa [Function.update_noteq e] using h
  · rw [untag_client_absent c tag st hm]
    exact h

theorem luaA_tag_clients_nodup (t tag : TagId) (table : List ClientId) (st : State)
    (h : (st.tags t).clients.Nodup) :
    ((luaA_tag_clients tag (some table) st).2.tags t).clients.Nodup := by
  rw [luaA_tag_clients_eq]
  simp only
  have h1 : ((luaA_tag_clients_untag_loop tag table (st.tags tag).clients.length 0 st).tags
      t).clients.Nodup := by
    unfold luaA_tag_clients_untag_loop
    apply foreach_invariant _ _ (fun s : State => (s.tags t).clients.Nodup)
    · intro x s hs
      show ((if lua_table_find x table then s else untag_client x tag s).tags t).clients.Nodup
      split
      · exact hs
      · exact untag_client_nodup t tag x s hs
    · exact h
  generalize luaA_tag_clients_untag_loop tag table (st.tags tag).clients.length 0 st = s1 at h1
  induction table generalizing s1 with
  | nil => exact h1
  | cons x xs ih =>
    rw [List.foldl_cons]
    exact ih _ (tag_client_nodup t tag x s1 h1)

theorem run_client_ops_nodup (t : TagId) (ops : List ClientOp) (st : State)
    (h : (st.tags t).clients.Nodup) : ((run_client_ops ops st).tags t).clients.Nodup := by
  induction ops generalizing st with
  | nil => exact h
  | cons op ops ih =>
    have hstep : ((op.apply st).tags t).clients.Nodup := by
      cases op with
      | tag_client tag c => exact tag_client_nodup t tag c st h
      | untag_client c tag => exact untag_client_nodup t tag c st h
      | set_clients tag table => exact luaA_tag_clients_nodup t tag table st h
    exact ih (op.apply st) hstep

/-- C18: starting from a tag with an empty client array, after any sequence of
`tag_client`, `untag_client` and bulk client-set calls (on any tags) the tag's
client array holds no client twice; so right after `untag_client(c, t)` the
client is not tagged, and right after `tag_client` of `c` on `t` it is. -/
theorem C18_clients_no_duplicates (st : State) (t : TagId)
    (hcl : (st.tags t).clients = []) (ops : List ClientOp) (c : ClientId) :
    ((run_client_ops ops st).tags t).clients.Nodup ∧
    is_client_tagged c ((untag_client c t (run_client_ops ops st)).tags t) = false ∧
    is_client_tagged c ((tag_client t c (run_client_ops ops st)).tags t) = true := by
  have hnd : ((run_client_ops ops st).tags t).clients.Nodup :=
    run_client_ops_nodup t ops st (by rw [hcl]; exact List.nodup_nil)
  refine ⟨hnd, ?_, ?_⟩
  · rw [← Bool.not_eq_true, is_client_tagged_iff]
    by_cases hm : c ∈ ((run_client_ops ops st).tags t).clients
    · rw [untag_client_member_clients c t _ hm, hnd.mem_erase_iff]
      simp
    · rw [untag_client_absent c t _ hm]
      exact hm
  · rw [is_client_tagged_iff]
    exact tag_client_twice t c _

/-- Concrete instance of the C18 theorem. -/
theorem C18_clients_no_duplicates_witness :
    (st0.tags 7).clients = [] ∧
    ((run_client_ops [ClientOp.tag_client 7 1, ClientOp.tag_client 7 2,
        ClientOp.tag_client 7 1, ClientOp.set_clients 7 [3, 3, 2], ClientOp.untag_client 3 7,
        ClientOp.tag_client 7 4] st0).tags 7).clients.Nodup ∧
    is_client_tagged 4 ((untag_client 4 7 (run_client_ops [ClientOp.tag_client 7 1,
        ClientOp.tag_client 7 2, ClientOp.tag_client 7 1, ClientOp.set_clients 7 [3, 3, 2],
        ClientOp.untag_client 3 7, ClientOp.tag_client 7 4] st0)).tags 7) = false ∧
    is_client_tagged 4 ((tag_client 7 4 (run_client_ops [ClientOp.tag_client 7 1,
        ClientOp.tag_client 7 2, ClientOp.tag_client 7 1, ClientOp.set_clients 7 [3, 3, 2],
        ClientOp.untag_client 3 7, ClientOp.tag_client 7 4] st0)).tags 7) = true :=
  ⟨rfl, C18_clients_no_duplicates st0 7 rfl _ 4⟩

/-- C19: for a client `c` that is not in the tag's client array, `tag_client`
followed by `untag_client` restores the client array exactly (same clients,
same order) and the reference count, and every client that was in the array
is in it after the first call and after the second. -/
theorem C19_tag_untag_round_trip (t : TagId) (c : ClientId) (st : State)
    (h : c ∉ (st.tags t).clients) :
    ((untag_client c t (tag_client t c st)).tags t).clients = (st.tags t).clients ∧
    ((untag_client c t (tag_client t c st)).tags t).refs = (st.tags t).refs ∧
    (untag_client c t (tag_client t c st)).tags = st.tags ∧
    (∀ d ∈ (st.tags t).clients,
      d ∈ ((tag_client t c st).tags t).clients ∧
      d ∈ ((untag_client c t (tag_client t c st)).tags t).clients) := by
  have hm : c ∈ ((tag_client t c st).tags t).clients := tag_client_twice t c st
  have hcl : ((untag_client c t (tag_client t c st)).tags t).clients = (st.tags t).clients := by
    rw [untag_client_member_clients c t _ hm, tag_client_absent_clients t c st h,
      List.erase_append_right _ h]
    simp
  have htags : (untag_client c t (tag_client t c st)).tags = st.tags := by
    rw [untag_client_member c t _ hm, tag_client_absent t c st h]
    simp [List.erase_append_right _ h]
  refine ⟨hcl, by rw [htags], htags, ?_⟩
  intro d hd
  refine ⟨?_, by rw [hcl]; exact hd⟩
  rw [tag_client_absent_clients t c st h]
  exact List.mem_append_left _ hd

/-- Concrete instance of the C19 theorem. -/
theorem C19_tag_untag_round_trip_witness :
    3 ∉ (st_two_clients.tags 7).clients ∧
    ((untag_client 3 7 (tag_client 7 3 st_two_clients)).tags 7).clients =
      (st_two_clients.tags 7).clients ∧
    ((untag_client 3 7 (tag_client 7 3 st_two_clients)).tags 7).refs =
      (st_two_clients.tags 7).refs ∧
    (untag_client 3 7 (tag_client 7 3 st_two_clients)).tags = st_two_clients.tags ∧
    (∀ d ∈ (st_two_clients.tags 7).clients,
      d ∈ ((tag_client 7 3 st_two_clients).tags 7).clients ∧
      d ∈ ((untag_client 3 7 (tag_client 7 3 st_two_clients)).tags 7).clients) :=
  ⟨by decide, C19_tag_untag_round_trip 7 3 st_two_clients (by decide)⟩

theorem draw_visual_depth_visuals_iff (vis : Nat) (l : List xcb_visualtype_t) :
    draw_visual_depth_visuals vis l = true ↔ ∃ v ∈ l, v.visual_id = vis := by
  induction l with
  | nil => simp [draw_visual_depth_visuals]
  | cons v rest ih =>
    by_cases h : vis = v.visual_id
    · simp [draw_visual_depth_visuals, h]
    · simp [draw_visual_depth_visuals, h, ih, Ne.symm h]

theorem draw_visual_depth_depths_none_iff (vis : Nat) (l : List xcb_depth_t) :
    draw_visual_depth_depths vis l = none ↔ ∀ d ∈ l, ∀ v ∈ d.visuals, v.visual_id ≠ vis := by
  induction l with
  | nil => simp [draw_visual_depth_depths]
  | cons d rest ih =>
    by_cases h : draw_visual_depth_visuals vis d.visuals = true
    · have := (draw_visual_depth_visuals_iff vis d.visuals).1 h
      obtain ⟨v, hv, hvv⟩ := this
      simp only [draw_visual_depth_depths, h, if_true, reduceCtorEq, false_iff]
      intro hall
      exact hall d (by simp) v hv hvv
    · have hn : ∀ v ∈ d.visuals, v.visual_id ≠ vis := by
        intro v hv hvv
        exact h ((draw_visual_depth_visuals_iff vis d.visuals).2 ⟨v, hv, hvv⟩)
      simp only [draw_visual_depth_depths, h, if_false, ih, List.mem_cons, forall_eq_or_imp,
        Bool.false_eq_true]
      constructor
      · intro hr
        exact ⟨hn, hr⟩
      · intro hr
        exact hr.2

theorem draw_visual_depth_depths_first (vis : Nat) (pre post : List xcb_depth_t)
    (d : xcb_depth_t) (hpre : ∀ d1 ∈ pre, ∀ v ∈ d1.visuals, v.visual_id ≠ vis)
    (hd : ∃ v ∈ d.visuals, v.visual_id = vis) :
    draw_visual_depth_depths vis (pre ++ d :: post) = some d.depth := by
  induction pre with
  | nil =>
    simp [draw_visual_depth_depths, (draw_visual_depth_visuals_iff vis d.visuals).2 hd]
  | cons d1 rest ih =>
    have h1 : ¬ draw_visual_depth_visuals vis d1.visuals = true := by
      intro h
      obtain ⟨v, hv, hvv⟩ := (draw_visual_depth_visuals_iff vis d1.visuals).1 h
      exact hpre d1 (by simp) v hv hvv
    simp only [List.cons_append, draw_visual_depth_depths, h1, if_false, Bool.false_eq_true]
    exact ih (fun d2 hd2 => hpre d2 (by simp [hd2]))

/-- C20: `draw_visual_depth` returns the depth of the first depth entry of the
screen that holds a visual with id `vis` (every entry before it holds none),
and it reaches the `fatal` call exactly when no depth entry holds a visual
with id `vis`. -/
theorem C20_draw_visual_depth_first_match (s : xcb_screen_t) (vis : Nat) :
    (∀ (pre post : List xcb_depth_t) (d : xcb_depth_t),
      s.allowed_depths = pre ++ d :: post →
      (∀ d1 ∈ pre, ∀ v ∈ d1.visuals, v.visual_id ≠ vis) →
      (∃ v ∈ d.visuals, v.visual_id = vis) →
      draw_visual_depth s vis = some d.depth) ∧
    (draw_visual_depth s vis = none ↔
      ∀ d ∈ s.allowed_depths, ∀ v ∈ d.visuals, v.visual_id ≠ vis) ∧
    draw_visual_depth s vis =
      (s.allowed_depths.find?
        (fun d => d.visuals.any (fun v => decide (v.visual_id = vis)))).map
        (fun d => d.depth) := by
  refine ⟨?_, ?_, ?_⟩
  · intro pre post d hs hpre hd
    unfold draw_visual_depth
    rw [hs]
    exact draw_visual_depth_depths_first vis pre post d hpre hd
  · exact draw_visual_depth_depths_none_iff vis s.allowed_depths
  · unfold draw_visual_depth
    generalize s.allowed_depths = l
    induction l with
    | nil => rfl
    | cons d rest ih =>
      by_cases h : draw_visual_depth_visuals vis d.visuals = true
      · have hany : (d.visuals.any (fun v => decide (v.visual_id = vis))) = true := by
          obtain ⟨v, hv, hvv⟩ := (draw_visual_depth_visuals_iff vis d.visuals).1 h
          exact List.any_eq_true.2 ⟨v, hv, by simp [hvv]⟩
        simp [draw_visual_depth_depths, h, List.find?_cons, hany]
      · have hany : (d.visuals.any (fun v => decide (v.visual_id = vis))) = false := by
          rw [← Bool.not_eq_true, List.any_eq_true]
          rintro ⟨v, hv, hvv⟩
          exact h ((draw_visual_depth_visuals_iff vis d.visuals).2 ⟨v, hv, by simpa using hvv⟩)
        simp only [draw_visual_depth_depths, h, if_false, Bool.false_eq_true, List.find?_cons,
          hany, ih]

/-- Concrete instance of the C20 theorem: visual 35 occurs in the second and the
third depth entry, and the depth of the second one, 32, is returned; visual 99
occurs nowhere and the fatal branch is taken. -/
theorem C20_draw_visual_depth_first_match_witness :
    draw_visual_depth xcb_screen_example 35 = some 32 ∧
    draw_visual_depth xcb_screen_example 99 = none :=
  ⟨(C20_draw_visual_depth_first_match xcb_screen_example 35).1
      [{ depth := 24, visuals := [{ visual_id := 33 }, { visual_id := 34 }] }]
      [{ depth := 30, visuals := [{ visual_id := 36 }, { visual_id := 35 }] }]
      { depth := 32, visuals := [{ visual_id := 35 }] } rfl (by decide) (by decide),
   (C20_draw_visual_depth_first_match xcb_screen_example 99).2.1.2 (by decide)⟩

theorem argb_pack_eq (a r g b : Nat) (hr : r < 256) (hg : g < 256) (hb : b < 256) :
    ((a <<< 24) ||| (r <<< 16) ||| (g <<< 8) ||| b) =
      a * 2 ^ 24 + r * 2 ^ 16 + g * 2 ^ 8 + b := by
  have h1 : g <<< 8 ||| b = 2 ^ 8 * g + b := by
    rw [Nat.shiftLeft_eq, Nat.mul_comm g, ← Nat.mul_add_lt_is_or (by omega) g]
  have h2 : r <<< 16 ||| (2 ^ 8 * g + b) = 2 ^ 16 * r + (2 ^ 8 * g + b) := by
    rw [Nat.shiftLeft_eq, Nat.mul_comm r, ← Nat.mul_add_lt_is_or (by omega) r]
  have h3 : a <<< 24 ||| (2 ^ 16 * r + (2 ^ 8 * g + b)) =
      2 ^ 24 * a + (2 ^ 16 * r + (2 ^ 8 * g + b)) := by
    rw [Nat.shiftLeft_eq, Nat.mul_comm a, ← Nat.mul_add_lt_is_or (by omega) a]
  rw [Nat.lor_assoc, Nat.lor_assoc, h1, h2, h3]
  omega

theorem double_to_uint8_le (x : ℚ) (n : Nat) (hn : n < 256) (h0 : 0 ≤ x) (hx : x ≤ n) :
    double_to_uint8 x ≤ n := by
  unfold double_to_uint8
  have hf : ⌊x⌋ ≤ (n : ℤ) := by
    have : (⌊x⌋ : ℚ) ≤ ((n : ℤ) : ℚ) := le_trans (Int.floor_le x) (by simpa using hx)
    exact Int.cast_le.1 this
  have hf0 : 0 ≤ ⌊x⌋ := Int.floor_nonneg.2 h0
  omega

theorem double_to_uint8_natCast (n : Nat) (hn : n < 256) : double_to_uint8 (n : ℚ) = n := by
  unfold double_to_uint8
  rw [Int.floor_natCast]
  simp only [Int.toNat_ofNat]
  omega

theorem premultiply_channel_le (fl : ℚ → ℚ)
    (hmono : ∀ x y : ℚ, 0 ≤ x → x ≤ y → fl x ≤ fl y)
    (hexact : ∀ n : Nat, n ≤ 255 → fl (n : ℚ) = (n : ℚ))
    (a c : Nat) (ha : a ≤ 255) (hc : c ≤ 255) :
    double_to_uint8 (fl ((c : ℚ) * fl ((a : ℚ) / 255))) ≤ c := by
  have h0 : fl 0 = 0 := by simpa using hexact 0 (by omega)
  have h1 : fl 1 = 1 := by simpa using hexact 1 (by omega)
  have haq : (a : ℚ) ≤ 255 := by exact_mod_cast ha
  have ha0 : (0 : ℚ) ≤ (a : ℚ) / 255 := by positivity
  have ha1 : (a : ℚ) / 255 ≤ 1 := by
    rw [div_le_one (by norm_num)]
    exact haq
  have hal0 : 0 ≤ fl ((a : ℚ) / 255) := by
    have := hmono 0 ((a : ℚ) / 255) (le_refl 0) ha0
    rwa [h0] at this
  have hal1 : fl ((a : ℚ) / 255) ≤ 1 := by
    have := hmono ((a : ℚ) / 255) 1 ha0 ha1
    rwa [h1] at this
  have hc0 : (0 : ℚ) ≤ (c : ℚ) := by positivity
  have hp0 : 0 ≤ (c : ℚ) * fl ((a : ℚ) / 255) := mul_nonneg hc0 hal0
  have hp1 : (c : ℚ) * fl ((a : ℚ) / 255) ≤ (c : ℚ) := by
    calc (c : ℚ) * fl ((a : ℚ) / 255) ≤ (c : ℚ) * 1 := mul_le_mul_of_nonneg_left hal1 hc0
      _ = (c : ℚ) := mul_one _
  apply double_to_uint8_le _ c (by omega)
  · have := hmono 0 _ (le_refl 0) hp0
    rwa [h0] at this
  · have := hmono _ _ hp0 hp1
    rwa [hexact c hc] at this

theorem premultiply_channel_opaque (fl : ℚ → ℚ)
    (hexact : ∀ n : Nat, n ≤ 255 → fl (n : ℚ) = (n : ℚ)) (c : Nat) (hc : c ≤ 255) :
    double_to_uint8 (fl ((c : ℚ) * fl (((255 : Nat) : ℚ) / 255))) = c := by
  have h1 : fl 1 = 1 := by simpa using hexact 1 (by omega)
  have e : (((255 : Nat) : ℚ) / 255) = 1 := by norm_num
  rw [e, h1, mul_one, hexact c hc]
  exact double_to_uint8_natCast c (by omega)

theorem premultiply_channel_transparent (fl : ℚ → ℚ)
    (hexact : ∀ n : Nat, n ≤ 255 → fl (n : ℚ) = (n : ℚ)) (c : Nat) :
    double_to_uint8 (fl ((c : ℚ) * fl (((0 : Nat) : ℚ) / 255))) = 0 := by
  have h0 : fl 0 = 0 := by simpa using hexact 0 (by omega)
  have e : (((0 : Nat) : ℚ) / 255) = 0 := by norm_num
  rw [e, h0, mul_zero, h0]
  simp [double_to_uint8]

theorem draw_surface_from_data_pixel_eq (fl : ℚ → ℚ) (p : Nat) :
    draw_surface_from_data_pixel fl p =
      ((p / 2 ^ 24 % 256) * 2 ^ 24 +
        double_to_uint8 (fl (((p / 2 ^ 16 % 256 : Nat) : ℚ) *
          fl (((p / 2 ^ 24 % 256 : Nat) : ℚ) / 255))) * 2 ^ 16 +
        double_to_uint8 (fl (((p / 2 ^ 8 % 256 : Nat) : ℚ) *
          fl (((p / 2 ^ 24 % 256 : Nat) : ℚ) / 255))) * 2 ^ 8 +
        double_to_uint8 (fl (((p % 256 : Nat) : ℚ) *
          fl (((p / 2 ^ 24 % 256 : Nat) : ℚ) / 255)))) % 2 ^ 32 := by
  have hand : ∀ x : Nat, x &&& 255 = x % 256 := fun x => Nat.and_pow_two_sub_one_eq_mod x 8
  have hlt : ∀ x : ℚ, double_to_uint8 x < 256 := fun x => Nat.mod_lt _ (by norm_num)
  unfold draw_surface_from_data_pixel
  simp only [hand, Nat.shiftRight_eq_div_pow, Nat.pow_zero, Nat.div_one]
  rw [argb_pack_eq _ _ _ _ (hlt _) (hlt _) (hlt _)]

theorem round_half_even_bounds (x : ℚ) :
    ⌊x⌋ ≤ round_half_even x ∧ round_half_even x ≤ ⌊x⌋ + 1 ∧
    (round_half_even x = ⌊x⌋ + 1 → (1 : ℚ) / 2 ≤ x - (⌊x⌋ : ℚ)) ∧
    (round_half_even x = ⌊x⌋ → x - (⌊x⌋ : ℚ) ≤ 1 / 2) := by
  unfold round_half_even
  split
  · rename_i h
    exact ⟨le_refl _, by omega, fun he => by omega, fun _ => le_of_lt h⟩
  · rename_i h
    split
    · rename_i h2
      exact ⟨by omega, le_refl _, fun _ => le_of_lt h2, fun he => by omega⟩
    · rename_i h2
      have heq : x - (⌊x⌋ : ℚ) = 1 / 2 := le_antisymm (not_lt.1 h2) (not_lt.1 h)
      split
      · exact ⟨le_refl _, by omega, fun he => by omega, fun _ => le_of_eq heq⟩
      · exact ⟨by omega, le_refl _, fun _ => le_of_eq heq.symm, fun he => by omega⟩

theorem round_half_even_le (x : ℚ) (n : ℤ) (h : x ≤ (n : ℚ)) : round_half_even x ≤ n := by
  obtain ⟨_, h2, h3, _⟩ := round_half_even_bounds x
  have hf : ⌊x⌋ ≤ n := Int.cast_le.1 (le_trans (Int.floor_le x) h)
  by_cases he : round_half_even x = ⌊x⌋ + 1
  · have hfrac := h3 he
    have hlt : (⌊x⌋ : ℚ) < (n : ℚ) := by linarith
    have : ⌊x⌋ < n := Int.cast_lt.1 hlt
    omega
  · omega

theorem le_round_half_even (x : ℚ) (n : ℤ) (h : (n : ℚ) ≤ x) : n ≤ round_half_even x := by
  obtain ⟨h1, _, _, _⟩ := round_half_even_bounds x
  exact le_trans (Int.le_floor.2 h) h1

theorem round_half_even_mono (x y : ℚ) (h : x ≤ y) : round_half_even x ≤ round_half_even y := by
  have hfl : ⌊x⌋ ≤ ⌊y⌋ := Int.floor_le_floor h
  by_cases hlt : ⌊x⌋ < ⌊y⌋
  · have hx : x ≤ ((⌊y⌋ : ℤ) : ℚ) := by
      have h1 : x < (⌊x⌋ : ℚ) + 1 := Int.lt_floor_add_one x
      have h2 : ((⌊x⌋ + 1 : ℤ) : ℚ) ≤ ((⌊y⌋ : ℤ) : ℚ) := Int.cast_le.2 (by omega)
      push_cast at h2
      linarith
    exact le_trans (round_half_even_le x ⌊y⌋ hx) (le_round_half_even y ⌊y⌋ (Int.floor_le y))
  · have heq : ⌊x⌋ = ⌊y⌋ := by omega
    unfold round_half_even
    rw [heq]
    have hfrac : x - (⌊y⌋ : ℚ) ≤ y - (⌊y⌋ : ℚ) := by linarith
    split
    · split
      · exact le_refl _
      · split
        · omega
        · split
          · exact le_refl _
          · omega
    · rename_i hx1
      split
      · rename_i hx2
        have hy1 : ¬ (y - (⌊y⌋ : ℚ) < 1 / 2) := by
          intro hc
          linarith
        have hy2 : 1 / 2 < y - (⌊y⌋ : ℚ) := by linarith
        simp only [hy1, hy2, if_false, if_true]
        exact le_refl _
      · rename_i hx2
        have hy1 : ¬ (y - (⌊y⌋ : ℚ) < 1 / 2) := by
          intro hc
          exact hx1 (lt_of_le_of_lt hfrac hc)
        simp only [hy1, if_false]
        split
        · split
          · omega
          · omega
        · split
          · omega
          · exact le_refl _

theorem binary64_quantum_inv (e : ℤ) : (2 : ℚ) ^ (e - 52) * (2 : ℚ) ^ (52 - e) = 1 := by
  rw [← zpow_add₀ (two_ne_zero), show e - 52 + (52 - e) = 0 by ring, zpow_zero]

theorem binary64_grid_pow (e : ℤ) (m : Nat) :
    (((2 ^ m : ℤ) : ℚ)) * (2 : ℚ) ^ (e - 52) = (2 : ℚ) ^ (e - 52 + (m : ℤ)) := by
  rw [zpow_add₀ (two_ne_zero), zpow_natCast]
  push_cast
  ring

/-- Rounding a positive value never crosses a point of its own grid (upwards). -/
theorem round_binary64_pos_le_grid (x : ℚ) (k : ℤ)
    (h : x ≤ (k : ℚ) * (2 : ℚ) ^ (Int.log 2 x - 52)) :
    round_binary64_pos x ≤ (k : ℚ) * (2 : ℚ) ^ (Int.log 2 x - 52) := by
  have hq : (0 : ℚ) < (2 : ℚ) ^ (Int.log 2 x - 52) := zpow_pos (by norm_num) _
  have hqi : (0 : ℚ) < (2 : ℚ) ^ (52 - Int.log 2 x) := zpow_pos (by norm_num) _
  have hs : x * (2 : ℚ) ^ (52 - Int.log 2 x) ≤ (k : ℚ) := by
    calc x * (2 : ℚ) ^ (52 - Int.log 2 x)
        ≤ (k : ℚ) * (2 : ℚ) ^ (Int.log 2 x - 52) * (2 : ℚ) ^ (52 - Int.log 2 x) :=
          mul_le_mul_of_nonneg_right h (le_of_lt hqi)
      _ = (k : ℚ) := by rw [mul_assoc, binary64_quantum_inv, mul_one]
  have hr := round_half_even_le _ k hs
  unfold round_binary64_pos
  exact mul_le_mul_of_nonneg_right (Int.cast_le.2 hr) (le_of_lt hq)

/-- Rounding a positive value never crosses a point of its own grid (downwards). -/
theorem round_binary64_pos_ge_grid (x : ℚ) (k : ℤ)
    (h : (k : ℚ) * (2 : ℚ) ^ (Int.log 2 x - 52) ≤ x) :
    (k : ℚ) * (2 : ℚ) ^ (Int.log 2 x - 52) ≤ round_binary64_pos x := by
  have hq : (0 : ℚ) < (2 : ℚ) ^ (Int.log 2 x - 52) := zpow_pos (by norm_num) _
  have hqi : (0 : ℚ) < (2 : ℚ) ^ (52 - Int.log 2 x) := zpow_pos (by norm_num) _
  have hs : (k : ℚ) ≤ x * (2 : ℚ) ^ (52 - Int.log 2 x) := by
    calc (k : ℚ) = (k : ℚ) * (2 : ℚ) ^ (Int.log 2 x - 52) * (2 : ℚ) ^ (52 - Int.log 2 x) := by
          rw [mul_assoc, binary64_quantum_inv, mul_one]
      _ ≤ x * (2 : ℚ) ^ (52 - Int.log 2 x) := mul_le_mul_of_nonneg_right h (le_of_lt hqi)
  have hr := le_round_half_even _ k hs
  unfold round_binary64_pos
  exact mul_le_mul_of_nonneg_right (Int.cast_le.2 hr) (le_of_lt hq)

theorem round_binary64_pos_ge_pow (x : ℚ) (hx : 0 < x) :
    (2 : ℚ) ^ (Int.log 2 x) ≤ round_binary64_pos x := by
  have hg := binary64_grid_pow (Int.log 2 x) 52
  have he : Int.log 2 x - 52 + ((52 : Nat) : ℤ) = Int.log 2 x := by push_cast; ring
  rw [he] at hg
  have hle : (2 : ℚ) ^ (Int.log 2 x) ≤ x := by
    have := Int.zpow_log_le_self (b := 2) (r := x) (by norm_num) hx
    simpa using this
  have := round_binary64_pos_ge_grid x (2 ^ 52) (by rw [hg]; exact hle)
  rwa [hg] at this

theorem round_binary64_pos_le_pow (x : ℚ) :
    round_binary64_pos x ≤ (2 : ℚ) ^ (Int.log 2 x + 1) := by
  have hg := binary64_grid_pow (Int.log 2 x) 53
  have he : Int.log 2 x - 52 + ((53 : Nat) : ℤ) = Int.log 2 x + 1 := by push_cast; ring
  rw [he] at hg
  have hle : x ≤ (2 : ℚ) ^ (Int.log 2 x + 1) := by
    have := Int.lt_zpow_succ_log_self (b := 2) (by norm_num) x
    exact le_of_lt (by simpa using this)
  have := round_binary64_pos_le_grid x (2 ^ 53) (by rw [hg]; exact hle)
  rwa [hg] at this

theorem round_binary64_pos_mono (x y : ℚ) (hx : 0 < x) (h : x ≤ y) :
    round_binary64_pos x ≤ round_binary64_pos y := by
  have hy : 0 < y := lt_of_lt_of_le hx h
  have hlog : Int.log 2 x ≤ Int.log 2 y := Int.log_mono_right hx h
  by_cases heq : Int.log 2 x = Int.log 2 y
  · unfold round_binary64_pos
    rw [heq]
    have hq : (0 : ℚ) < (2 : ℚ) ^ (Int.log 2 y - 52) := zpow_pos (by norm_num) _
    have hqi : (0 : ℚ) < (2 : ℚ) ^ (52 - Int.log 2 y) := zpow_pos (by norm_num) _
    have hs := mul_le_mul_of_nonneg_right h (le_of_lt hqi)
    exact mul_le_mul_of_nonneg_right (Int.cast_le.2 (round_half_even_mono _ _ hs)) (le_of_lt hq)
  · have hlt : Int.log 2 x + 1 ≤ Int.log 2 y := by omega
    calc round_binary64_pos x ≤ (2 : ℚ) ^ (Int.log 2 x + 1) := round_binary64_pos_le_pow x
      _ ≤ (2 : ℚ) ^ (Int.log 2 y) := zpow_le_zpow_right₀ (by norm_num) hlt
      _ ≤ round_binary64_pos y := round_binary64_pos_ge_pow y hy

/-- Binary64 rounding is monotone on the non-negative values. -/
theorem round_binary64_mono (x y : ℚ) (hx : 0 ≤ x) (h : x ≤ y) :
    round_binary64 x ≤ round_binary64 y := by
  unfold round_binary64
  by_cases hx0 : x = 0
  · by_cases hy0 : y = 0
    · simp [hx0, hy0]
    · have hy : 0 < y := lt_of_le_of_ne (hx0 ▸ h) (Ne.symm hy0)
      simp only [hx0, if_true, hy0, if_false, hy]
      exact le_trans (le_of_lt (zpow_pos (by norm_num) _)) (round_binary64_pos_ge_pow y hy)
  · have hxp : 0 < x := lt_of_le_of_ne hx (Ne.symm hx0)
    have hyp : 0 < y := lt_of_lt_of_le hxp h
    have hy0 : y ≠ 0 := ne_of_gt hyp
    simp only [hx0, hy0, if_false, hxp, hyp, if_true]
    exact round_binary64_pos_mono x y hxp h

/-- Binary64 rounding is exact on the integers 0 to 255. -/
theorem round_binary64_natCast (n : Nat) (hn : n ≤ 255) : round_binary64 (n : ℚ) = (n : ℚ) := by
  unfold round_binary64
  by_cases h0 : n = 0
  · simp [h0]
  · have hpos : (0 : ℚ) < (n : ℚ) := by
      have : 0 < n := Nat.pos_of_ne_zero h0
      exact_mod_cast this
    have hne : (n : ℚ) ≠ 0 := ne_of_gt hpos
    simp only [hne, if_false, hpos, if_true]
    have hlog : Int.log 2 (n : ℚ) < 8 := by
      rw [← Int.lt_zpow_iff_log_lt (by norm_num) hpos]
      norm_num
      omega
    have hnn : 0 ≤ 52 - Int.log 2 (n : ℚ) := by omega
    have hk : (((n : ℤ) * 2 ^ (52 - Int.log 2 (n : ℚ)).toNat : ℤ) : ℚ) *
        (2 : ℚ) ^ (Int.log 2 (n : ℚ) - 52) = (n : ℚ) := by
      push_cast
      rw [mul_assoc, ← zpow_natCast, Int.toNat_of_nonneg hnn, mul_comm ((2 : ℚ) ^ _),
        binary64_quantum_inv, mul_one]
    apply le_antisymm
    · have := round_binary64_pos_le_grid (n : ℚ) ((n : ℤ) * 2 ^ (52 - Int.log 2 (n : ℚ)).toNat)
        (by rw [hk])
      rwa [hk] at this
    · have := round_binary64_pos_ge_grid (n : ℚ) ((n : ℤ) * 2 ^ (52 - Int.log 2 (n : ℚ)).toNat)
        (by rw [hk])
      rwa [hk] at this

/-- C21: for every 32-bit ARGB pixel `p`, and for every rounding `fl` of
`double` operations that is monotone on non-negative values and exact on the
integers 0 to 255, the pixel `draw_surface_from_data` writes has the alpha byte
of `p`; it is `p` itself when the alpha byte is 255 and `0` when the alpha byte
is 0; and each of its red, green and blue bytes is at most the corresponding
byte of `p`.  The buffer is the pointwise conversion of the input pixels. -/
theorem C21_premultiplied_alpha_pixel (fl : ℚ → ℚ)
    (hmono : ∀ x y : ℚ, 0 ≤ x → x ≤ y → fl x ≤ fl y)
    (hexact : ∀ n : Nat, n ≤ 255 → fl (n : ℚ) = (n : ℚ))
    (p : Nat) (hp : p < 2 ^ 32) :
    (draw_surface_from_data_pixel fl p >>> 24) &&& 0xff = (p >>> 24) &&& 0xff ∧
    ((p >>> 24) &&& 0xff = 255 → draw_surface_from_data_pixel fl p = p) ∧
    ((p >>> 24) &&& 0xff = 0 → draw_surface_from_data_pixel fl p = 0) ∧
    (draw_surface_from_data_pixel fl p >>> 16) &&& 0xff ≤ (p >>> 16) &&& 0xff ∧
    (draw_surface_from_data_pixel fl p >>> 8) &&& 0xff ≤ (p >>> 8) &&& 0xff ∧
    (draw_surface_from_data_pixel fl p >>> 0) &&& 0xff ≤ (p >>> 0) &&& 0xff ∧
    draw_surface_from_data_pixel fl p < 2 ^ 32 ∧
    (∀ (width height : Nat) (data : List Nat),
      draw_surface_from_data fl width height data =
        (data.take (width * height)).map (draw_surface_from_data_pixel fl)) := by
  have hand : ∀ x : Nat, x &&& 255 = x % 256 := fun x => Nat.and_pow_two_sub_one_eq_mod x 8
  have hr := premultiply_channel_le fl hmono hexact (p / 2 ^ 24 % 256) (p / 2 ^ 16 % 256)
    (by omega) (by omega)
  have hg := premultiply_channel_le fl hmono hexact (p / 2 ^ 24 % 256) (p / 2 ^ 8 % 256)
    (by omega) (by omega)
  have hb := premultiply_channel_le fl hmono hexact (p / 2 ^ 24 % 256) (p % 256)
    (by omega) (by omega)
  have hq := draw_surface_from_data_pixel_eq fl p
  simp only [hand, Nat.shiftRight_eq_div_pow, Nat.pow_zero, Nat.div_one]
  refine ⟨?_, ?_, ?_, ?_, ?_, ?_, ?_, fun _ _ _ => rfl⟩
  · rw [hq]
    omega
  · intro ha
    have h1 := premultiply_channel_opaque fl hexact (p / 2 ^ 16 % 256) (by omega)
    have h2 := premultiply_channel_opaque fl hexact (p / 2 ^ 8 % 256) (by omega)
    have h3 := premultiply_channel_opaque fl hexact (p % 256) (by omega)
    rw [hq, ha, h1, h2, h3]
    omega
  · intro ha
    have h1 := premultiply_channel_transparent fl hexact (p / 2 ^ 16 % 256)
    have h2 := premultiply_channel_transparent fl hexact (p / 2 ^ 8 % 256)
    have h3 := premultiply_channel_transparent fl hexact (p % 256)
    rw [hq, ha, h1, h2, h3]
    norm_num
  · rw [hq]
    omega
  · rw [hq]
    omega
  · rw [hq]
    omega
  · rw [hq]
    omega

/-- Concrete instance of the C21 theorem: the rounding is that of IEEE 754
binary64 (nearest, ties to even) and the pixel is `0x80FF8001` (alpha 128). -/
theorem C21_premultiplied_alpha_pixel_witness :
    (0x80FF8001 < 2 ^ 32) ∧
    ((draw_surface_from_data_pixel round_binary64 0x80FF8001 >>> 24) &&& 0xff =
      (0x80FF8001 >>> 24) &&& 0xff ∧
    ((0x80FF8001 >>> 24) &&& 0xff = 255 →
      draw_surface_from_data_pixel round_binary64 0x80FF8001 = 0x80FF8001) ∧
    ((0x80FF8001 >>> 24) &&& 0xff = 0 →
      draw_surface_from_data_pixel round_binary64 0x80FF8001 = 0) ∧
    (draw_surface_from_data_pixel round_binary64 0x80FF8001 >>> 16) &&& 0xff ≤
      (0x80FF8001 >>> 16) &&& 0xff ∧
    (draw_surface_from_data_pixel round_binary64 0x80FF8001 >>> 8) &&& 0xff ≤
      (0x80FF8001 >>> 8) &&& 0xff ∧
    (draw_surface_from_data_pixel round_binary64 0x80FF8001 >>> 0) &&& 0xff ≤
      (0x80FF8001 >>> 0) &&& 0xff ∧
    draw_surface_from_data_pixel round_binary64 0x80FF8001 < 2 ^ 32 ∧
    (∀ (width height : Nat) (data : List Nat),
      draw_surface_from_data round_binary64 width height data =
        (data.take (width * height)).map (draw_surface_from_data_pixel round_binary64))) :=
  ⟨by norm_num,
    C21_premultiplied_alpha_pixel round_binary64 round_binary64_mono round_binary64_natCast
      0x80FF8001 (by norm_num)⟩

end AwesomeWM
